import Mathlib

/-!
Verification of the incoming-media-track core of `media-server-go`.

The Go source is shallowly embedded: Go `uint` (64-bit) arithmetic is `Nat`
with an explicit `% 2 ^ 64` at every addition site, Go `int`/`int64` are
`Int`, Go maps are association lists, Go slices are `List`, and
`sort.Slice` is `List.insertionSort` with the source's comparator.
Mutation is modelled by explicit state passing; notification emission
(`EmitSync`/`Emit`) is modelled as the list of events an operation emits.
-/

namespace MediaServerGo

/-- Modulus of Go's 64-bit `uint`. -/
def M64 : Nat := 2 ^ 64

/-- Go `uint` addition (wraps at `2 ^ 64`). -/
def addU (a b : Nat) : Nat := (a + b) % M64

/-- Sum of a list of Go `uint` values, accumulated left-to-right as Go does. -/
def sumU (xs : List Nat) : Nat := xs.foldl addU 0

/-- `Layer` (field for field from the Go struct; Go zero values as defaults). -/
structure Layer where
  EncodingId : String := ""
  SpatialLayerId : Int := 0
  TemporalLayerId : Int := 0
  TotalBytes : Nat := 0
  NumPackets : Nat := 0
  Bitrate : Nat := 0
  SimulcastIdx : Int := 0
deriving Repr, DecidableEq

/-- One raw per-(spatial,temporal) layer sample exposed by the external
receive source (the five getters `getStatsFromIncomingSource` reads). -/
structure SrcLayer where
  SpatialLayerId : Int
  TemporalLayerId : Int
  TotalBytes : Nat
  NumPackets : Nat
  Bitrate : Nat
deriving Repr, DecidableEq

/-- Snapshot of one external `RTPIncomingSource`: the raw counters and the raw
layer list read by `getStatsFromIncomingSource`. -/
structure RTPIncomingSource where
  LostPackets : Nat
  DropPackets : Nat
  NumPackets : Nat
  NumRTCPPackets : Nat
  TotalBytes : Nat
  TotalRTCPBytes : Nat
  TotalPLIs : Nat
  TotalNACKs : Nat
  Bitrate : Nat
  layers : List SrcLayer
deriving Repr, DecidableEq

/-- `IncomingStats` (field for field from the Go struct). -/
structure IncomingStats where
  LostPackets : Nat
  DropPackets : Nat
  NumPackets : Nat
  NumRTCPPackets : Nat
  TotalBytes : Nat
  TotalRTCPBytes : Nat
  TotalPLIs : Nat
  TotalNACKs : Nat
  Bitrate : Nat
  Layers : List Layer
deriving Repr, DecidableEq

/-- The `layerInfo` built from one raw sample in the first loop of
`getStatsFromIncomingSource` (remaining `Layer` fields stay at Go zero values). -/
def layerOfSrc (l : SrcLayer) : Layer :=
  { SpatialLayerId := l.SpatialLayerId, TemporalLayerId := l.TemporalLayerId,
    TotalBytes := l.TotalBytes, NumPackets := l.NumPackets, Bitrate := l.Bitrate }

/-- Body of the inner loop of `getStatsFromIncomingSource`: add `l2`'s
cumulative fields into `agg` when `l2`'s ids are both ≤ `agg`'s ids. -/
def aggStep (agg l2 : Layer) : Layer :=
  if decide (l2.SpatialLayerId ≤ agg.SpatialLayerId)
      && decide (l2.TemporalLayerId ≤ agg.TemporalLayerId) then
    { agg with
      TotalBytes := addU agg.TotalBytes l2.TotalBytes,
      NumPackets := addU agg.NumPackets l2.NumPackets,
      Bitrate := addU agg.Bitrate l2.Bitrate }
  else agg

/-- The `aggregated` layer computed for `l` by the second loop of
`getStatsFromIncomingSource`. -/
def aggregateLayer (individual : List Layer) (l : Layer) : Layer :=
  individual.foldl aggStep
    { SpatialLayerId := l.SpatialLayerId, TemporalLayerId := l.TemporalLayerId,
      TotalBytes := 0, NumPackets := 0, Bitrate := 0 }

/-- `getStatsFromIncomingSource`: copy the top-level counters verbatim and
aggregate every observed layer over all layers it covers. -/
def getStatsFromIncomingSource (source : RTPIncomingSource) : IncomingStats :=
  let individual := source.layers.map layerOfSrc
  { LostPackets := source.LostPackets,
    DropPackets := source.DropPackets,
    NumPackets := source.NumPackets,
    NumRTCPPackets := source.NumRTCPPackets,
    TotalBytes := source.TotalBytes,
    TotalRTCPBytes := source.TotalRTCPBytes,
    TotalPLIs := source.TotalPLIs,
    TotalNACKs := source.TotalNACKs,
    Bitrate := source.Bitrate,
    Layers := individual.map (aggregateLayer individual) }

/-- Whether a layer's ids are covered by (dominated by) the pair `(s, t)`. -/
def hitsL (s t : Int) (l : Layer) : Bool :=
  decide (l.SpatialLayerId ≤ s) && decide (l.TemporalLayerId ≤ t)

/-- Whether a raw sample's ids are covered by the pair `(s, t)`. -/
def hitsS (s t : Int) (l : SrcLayer) : Bool :=
  decide (l.SpatialLayerId ≤ s) && decide (l.TemporalLayerId ≤ t)

theorem addU_lt (a b : Nat) : addU a b < M64 :=
  Nat.mod_lt _ (by simp [M64])

theorem foldl_addU_eq (xs : List Nat) : ∀ a, a < M64 →
    List.foldl addU a xs = (a + xs.sum) % M64 := by
  induction xs with
  | nil => intro a ha; simp [Nat.mod_eq_of_lt ha]
  | cons b xs ih =>
    intro a _
    have h1 : List.foldl addU a (b :: xs) = List.foldl addU (addU a b) xs := rfl
    rw [h1, ih _ (addU_lt a b)]
    simp [addU, Nat.mod_add_mod, Nat.add_assoc, List.sum_cons]

theorem sumU_eq (xs : List Nat) : sumU xs = xs.sum % M64 := by
  have := foldl_addU_eq xs 0 (by simp [M64])
  simpa [sumU] using this

/-- The aggregation fold keeps the target ids fixed and accumulates, for each
of the three cumulative fields, the wrapped sum of the covered layers. -/
theorem aggFold_spec (xs : List Layer) : ∀ init : Layer,
    (xs.foldl aggStep init).SpatialLayerId = init.SpatialLayerId ∧
    (xs.foldl aggStep init).TemporalLayerId = init.TemporalLayerId ∧
    (xs.foldl aggStep init).EncodingId = init.EncodingId ∧
    (xs.foldl aggStep init).SimulcastIdx = init.SimulcastIdx ∧
    (xs.foldl aggStep init).TotalBytes =
      List.foldl addU init.TotalBytes
        (((xs.filter (hitsL init.SpatialLayerId init.TemporalLayerId)).map Layer.TotalBytes)) ∧
    (xs.foldl aggStep init).NumPackets =
      List.foldl addU init.NumPackets
        (((xs.filter (hitsL init.SpatialLayerId init.TemporalLayerId)).map Layer.NumPackets)) ∧
    (xs.foldl aggStep init).Bitrate =
      List.foldl addU init.Bitrate
        (((xs.filter (hitsL init.SpatialLayerId init.TemporalLayerId)).map Layer.Bitrate)) := by
  induction xs with
  | nil => intro init; simp
  | cons x xs ih =>
    intro init
    by_cases hx : hitsL init.SpatialLayerId init.TemporalLayerId x
    · have hstep : aggStep init x =
        { init with
          TotalBytes := addU init.TotalBytes x.TotalBytes,
          NumPackets := addU init.NumPackets x.NumPackets,
          Bitrate := addU init.Bitrate x.Bitrate } := by
        simp only [aggStep, hitsL] at hx ⊢
        rw [if_pos hx]
      have h1 : List.foldl aggStep init (x :: xs) = List.foldl aggStep (aggStep init x) xs := rfl
      obtain ⟨i1, i2, i3, i4, i5, i6, i7⟩ := ih (aggStep init x)
      rw [hstep] at i1 i2 i3 i4 i5 i6 i7
      simp only [h1, hstep]
      refine ⟨i1, i2, i3, i4, ?_, ?_, ?_⟩ <;>
        simp_all [List.filter_cons, hx]
    · have hstep : aggStep init x = init := by
        simp only [aggStep, hitsL] at hx ⊢
        rw [if_neg hx]
      have h1 : List.foldl aggStep init (x :: xs) = List.foldl aggStep (aggStep init x) xs := rfl
      obtain ⟨i1, i2, i3, i4, i5, i6, i7⟩ := ih init
      rw [h1, hstep]
      refine ⟨i1, i2, i3, i4, ?_, ?_, ?_⟩ <;>
        simp_all [List.filter_cons, hx]

theorem filter_map_layerOfSrc (s t : Int) (ls : List SrcLayer) :
    (ls.map layerOfSrc).filter (hitsL s t) = (ls.filter (hitsS s t)).map layerOfSrc := by
  induction ls with
  | nil => rfl
  | cons x xs ih =>
    by_cases hx : hitsS s t x
    · have hx' : hitsL s t (layerOfSrc x) = true := by
        simpa [hitsL, hitsS, layerOfSrc] using hx
      simp [List.filter_cons, hx, hx', ih]
    · have hx' : hitsL s t (layerOfSrc x) = false := by
        simp only [hitsS, Bool.not_eq_true] at hx
        simpa [hitsL, layerOfSrc] using hx
      simp [List.filter_cons, hx, hx', ih]

/-- The aggregated layer for target `x` keeps `x`'s ids and sums each
cumulative field over the raw samples `x` covers. -/
theorem aggregateLayer_spec (ls : List SrcLayer) (x : Layer) :
    (aggregateLayer (ls.map layerOfSrc) x).SpatialLayerId = x.SpatialLayerId ∧
    (aggregateLayer (ls.map layerOfSrc) x).TemporalLayerId = x.TemporalLayerId ∧
    (aggregateLayer (ls.map layerOfSrc) x).TotalBytes
      = sumU ((ls.filter (hitsS x.SpatialLayerId x.TemporalLayerId)).map SrcLayer.TotalBytes) ∧
    (aggregateLayer (ls.map layerOfSrc) x).NumPackets
      = sumU ((ls.filter (hitsS x.SpatialLayerId x.TemporalLayerId)).map SrcLayer.NumPackets) ∧
    (aggregateLayer (ls.map layerOfSrc) x).Bitrate
      = sumU ((ls.filter (hitsS x.SpatialLayerId x.TemporalLayerId)).map SrcLayer.Bitrate) := by
  obtain ⟨i1, i2, i3, i4, i5, i6, i7⟩ := aggFold_spec (ls.map layerOfSrc)
    { SpatialLayerId := x.SpatialLayerId, TemporalLayerId := x.TemporalLayerId,
      TotalBytes := 0, NumPackets := 0, Bitrate := 0 }
  rw [filter_map_layerOfSrc] at i5 i6 i7
  refine ⟨i1, i2, ?_, ?_, ?_⟩
  · simpa [aggregateLayer, sumU, List.map_map, Function.comp, layerOfSrc] using i5
  · simpa [aggregateLayer, sumU, List.map_map, Function.comp, layerOfSrc] using i6
  · simpa [aggregateLayer, sumU, List.map_map, Function.comp, layerOfSrc] using i7

/-- C1: the layer aggregator copies every top-level counter verbatim, emits one
output layer per observed (spatial, temporal) pair (in input order, distinct
pairs when the input pairs are distinct), each output layer's TotalBytes,
NumPackets and Bitrate equal the (Go `uint`) sum of that field over all
observed raw layers with spatial id ≤ s and temporal id ≤ t (the (s, t)
layer included), and an empty raw layer list yields an empty output layer
list. -/
theorem C1_layer_aggregator (source : RTPIncomingSource)
    (huniq : source.layers.Pairwise (fun a b =>
      (a.SpatialLayerId, a.TemporalLayerId) ≠ (b.SpatialLayerId, b.TemporalLayerId))) :
    (getStatsFromIncomingSource source).LostPackets = source.LostPackets ∧
    (getStatsFromIncomingSource source).DropPackets = source.DropPackets ∧
    (getStatsFromIncomingSource source).NumPackets = source.NumPackets ∧
    (getStatsFromIncomingSource source).NumRTCPPackets = source.NumRTCPPackets ∧
    (getStatsFromIncomingSource source).TotalBytes = source.TotalBytes ∧
    (getStatsFromIncomingSource source).TotalRTCPBytes = source.TotalRTCPBytes ∧
    (getStatsFromIncomingSource source).TotalPLIs = source.TotalPLIs ∧
    (getStatsFromIncomingSource source).TotalNACKs = source.TotalNACKs ∧
    (getStatsFromIncomingSource source).Bitrate = source.Bitrate ∧
    ((getStatsFromIncomingSource source).Layers.map
        (fun l => (l.SpatialLayerId, l.TemporalLayerId))
      = source.layers.map (fun r => (r.SpatialLayerId, r.TemporalLayerId))) ∧
    ((getStatsFromIncomingSource source).Layers.map
        (fun l => (l.SpatialLayerId, l.TemporalLayerId))).Nodup ∧
    (∀ l ∈ (getStatsFromIncomingSource source).Layers,
      l.TotalBytes = sumU (((source.layers.filter
          (hitsS l.SpatialLayerId l.TemporalLayerId)).map SrcLayer.TotalBytes)) ∧
      l.NumPackets = sumU (((source.layers.filter
          (hitsS l.SpatialLayerId l.TemporalLayerId)).map SrcLayer.NumPackets)) ∧
      l.Bitrate = sumU (((source.layers.filter
          (hitsS l.SpatialLayerId l.TemporalLayerId)).map SrcLayer.Bitrate))) ∧
    (source.layers = [] → (getStatsFromIncomingSource source).Layers = []) := by
  have hLayers : (getStatsFromIncomingSource source).Layers
      = (source.layers.map layerOfSrc).map
          (aggregateLayer (source.layers.map layerOfSrc)) := rfl
  have hpairs : (getStatsFromIncomingSource source).Layers.map
      (fun l => (l.SpatialLayerId, l.TemporalLayerId))
      = source.layers.map (fun r => (r.SpatialLayerId, r.TemporalLayerId)) := by
    rw [hLayers, List.map_map, List.map_map]
    refine List.map_congr_left ?_
    intro r _
    obtain ⟨i1, i2, _⟩ := aggregateLayer_spec source.layers (layerOfSrc r)
    simp only [Function.comp_apply]
    rw [i1, i2]
    simp [layerOfSrc]
  refine ⟨rfl, rfl, rfl, rfl, rfl, rfl, rfl, rfl, rfl, hpairs, ?_, ?_, ?_⟩
  · rw [hpairs]
    exact List.pairwise_map.mpr huniq
  · intro l hl
    rw [hLayers] at hl
    obtain ⟨y, _, rfl⟩ := List.mem_map.mp hl
    obtain ⟨s1, s2, s3, s4, s5⟩ := aggregateLayer_spec source.layers y
    rw [s1, s2]
    exact ⟨s3, s4, s5⟩
  · intro h
    rw [hLayers, h]
    rfl

/-- A concrete receive-source snapshot with three scalable layers. -/
def c1src : RTPIncomingSource :=
  { LostPackets := 1, DropPackets := 2, NumPackets := 30, NumRTCPPackets := 4,
    TotalBytes := 1000, TotalRTCPBytes := 50, TotalPLIs := 3, TotalNACKs := 5,
    Bitrate := 700,
    layers := [⟨0, 0, 100, 10, 300⟩, ⟨0, 1, 40, 4, 120⟩, ⟨1, 0, 60, 6, 180⟩] }

theorem C1_witness :
    c1src.layers.Pairwise (fun a b =>
      (a.SpatialLayerId, a.TemporalLayerId) ≠ (b.SpatialLayerId, b.TemporalLayerId)) ∧
    ((getStatsFromIncomingSource c1src).LostPackets = c1src.LostPackets ∧
     (getStatsFromIncomingSource c1src).DropPackets = c1src.DropPackets ∧
     (getStatsFromIncomingSource c1src).NumPackets = c1src.NumPackets ∧
     (getStatsFromIncomingSource c1src).NumRTCPPackets = c1src.NumRTCPPackets ∧
     (getStatsFromIncomingSource c1src).TotalBytes = c1src.TotalBytes ∧
     (getStatsFromIncomingSource c1src).TotalRTCPBytes = c1src.TotalRTCPBytes ∧
     (getStatsFromIncomingSource c1src).TotalPLIs = c1src.TotalPLIs ∧
     (getStatsFromIncomingSource c1src).TotalNACKs = c1src.TotalNACKs ∧
     (getStatsFromIncomingSource c1src).Bitrate = c1src.Bitrate ∧
     ((getStatsFromIncomingSource c1src).Layers.map
         (fun l => (l.SpatialLayerId, l.TemporalLayerId))
       = c1src.layers.map (fun r => (r.SpatialLayerId, r.TemporalLayerId))) ∧
     ((getStatsFromIncomingSource c1src).Layers.map
         (fun l => (l.SpatialLayerId, l.TemporalLayerId))).Nodup ∧
     (∀ l ∈ (getStatsFromIncomingSource c1src).Layers,
       l.TotalBytes = sumU (((c1src.layers.filter
           (hitsS l.SpatialLayerId l.TemporalLayerId)).map SrcLayer.TotalBytes)) ∧
       l.NumPackets = sumU (((c1src.layers.filter
           (hitsS l.SpatialLayerId l.TemporalLayerId)).map SrcLayer.NumPackets)) ∧
       l.Bitrate = sumU (((c1src.layers.filter
           (hitsS l.SpatialLayerId l.TemporalLayerId)).map SrcLayer.Bitrate))) ∧
     (c1src.layers = [] → (getStatsFromIncomingSource c1src).Layers = [])) :=
  ⟨by decide, C1_layer_aggregator c1src (by decide)⟩

/-! ## Lifecycle: attach/detach reference counting and Stop (track, stream, session) -/

/-- Notifications emitted by the core objects. -/
inductive Ev
  | attached
  | detached
  | stopped
  | trackEv
deriving Repr, DecidableEq

/-- Lifecycle-relevant state of an `IncomingStreamTrack`: the attach counter,
whether `receiver` is non-nil, and the `encodings` map (`none` once `Stop`
sets it to nil). -/
structure TrackLifecycle where
  counter : Int
  hasReceiver : Bool
  encodingIds : Option (List String)
deriving Repr, DecidableEq

/-- Track state right after `newIncomingStreamTrack` (counter starts at 0). -/
def newTrackLifecycle (ids : List String) : TrackLifecycle :=
  { counter := 0, hasReceiver := true, encodingIds := some ids }

/-- `IncomingStreamTrack.Attached`: increment the counter, emit "attached"
exactly when the counter just became 1. -/
def Attached (s : TrackLifecycle) : TrackLifecycle × List Ev :=
  let c := s.counter + 1
  ({ s with counter := c }, if c = 1 then [Ev.attached] else [])

/-- `IncomingStreamTrack.Detached`: decrement the counter, emit "detached"
exactly when the counter just became 0. -/
def Detached (s : TrackLifecycle) : TrackLifecycle × List Ev :=
  let c := s.counter - 1
  ({ s with counter := c }, if c = 0 then [Ev.detached] else [])

/-- `IncomingStreamTrack.Stop`: no-op when `receiver` is already nil; otherwise
release every encoding (external calls), emit "stopped" once, clear the
encoding map and the receiver reference. -/
def trackStop (s : TrackLifecycle) : TrackLifecycle × List Ev :=
  if s.hasReceiver = false then (s, [])
  else ({ s with hasReceiver := false, encodingIds := none }, [Ev.stopped])

/-- An attach/detach call sequence. -/
inductive TrackCall
  | attach
  | detach
deriving Repr, DecidableEq

/-- Run a sequence of `Attached`/`Detached` calls, collecting emitted events. -/
def runCalls : TrackLifecycle → List TrackCall → TrackLifecycle × List Ev
  | s, [] => (s, [])
  | s, c :: cs =>
    let r := match c with
      | TrackCall.attach => Attached s
      | TrackCall.detach => Detached s
    let r2 := runCalls r.1 cs
    (r2.1, r.2 ++ r2.2)

/-- Lifecycle-relevant state of an `IncomingStream`: whether `transport` is
non-nil and the owned track map. -/
structure StreamLifecycle where
  hasTransport : Bool
  tracks : List (String × TrackLifecycle)
deriving Repr, DecidableEq

/-- `IncomingStream.Stop`: no-op when `transport` is already nil; otherwise
stop and delete every owned track, emit "stopped" once, clear the transport
reference. -/
def streamStop (s : StreamLifecycle) : StreamLifecycle × List Ev :=
  if s.hasTransport = false then (s, [])
  else ({ hasTransport := false, tracks := [] }, [Ev.stopped])

/-- Lifecycle-relevant state of a `StreamerSession`: whether `session` is
non-nil, plus its incoming track (the outgoing track's code lives outside the
analysed sources; only its presence matters here). -/
structure SessionLifecycle where
  hasSession : Bool
  incoming : Option TrackLifecycle
  outgoingPresent : Bool
deriving Repr, DecidableEq

/-- `StreamerSession.Stop`: no-op when `session` is already nil; otherwise stop
both tracks, end the session, emit "stopped" once, clear the session
reference. -/
def sessionStop (s : SessionLifecycle) : SessionLifecycle × List Ev :=
  if s.hasSession = false then (s, [])
  else
    ({ hasSession := false,
       incoming := s.incoming.map (fun t => (trackStop t).1),
       outgoingPresent := s.outgoingPresent }, [Ev.stopped])

/-- C7: Attach/Detach keep a reference count; only the 0→1 transition emits
"attached" and only the 1→0 transition emits "detached"; three Attach calls
then two Detach calls leave the track attached having emitted "attached" once
and "detached" never, and one further Detach emits "detached" exactly once. -/
theorem C7_attach_detach_refcount :
    (∀ s : TrackLifecycle,
      (Attached s).1.counter = s.counter + 1 ∧
      (s.counter = 0 → (Attached s).2 = [Ev.attached]) ∧
      (s.counter ≠ 0 → (Attached s).2 = []) ∧
      (Detached s).1.counter = s.counter - 1 ∧
      (s.counter = 1 → (Detached s).2 = [Ev.detached]) ∧
      (s.counter ≠ 1 → (Detached s).2 = [])) ∧
    (runCalls (newTrackLifecycle [])
      [TrackCall.attach, TrackCall.attach, TrackCall.attach,
       TrackCall.detach, TrackCall.detach]).1.counter = 1 ∧
    (runCalls (newTrackLifecycle [])
      [TrackCall.attach, TrackCall.attach, TrackCall.attach,
       TrackCall.detach, TrackCall.detach]).2 = [Ev.attached] ∧
    (Detached (runCalls (newTrackLifecycle [])
      [TrackCall.attach, TrackCall.attach, TrackCall.attach,
       TrackCall.detach, TrackCall.detach]).1).2 = [Ev.detached] := by
  refine ⟨?_, by decide, by decide, by decide⟩
  intro s
  refine ⟨rfl, ?_, ?_, rfl, ?_, ?_⟩
  · intro h; simp [Attached, h]
  · intro h; simp only [Attached]; rw [if_neg (by omega)]
  · intro h; simp [Detached, h]
  · intro h; simp only [Detached]; rw [if_neg (by omega)]

theorem C7_witness :
    (newTrackLifecycle []).counter = 0 ∧
    (Attached (newTrackLifecycle [])).2 = [Ev.attached] :=
  ⟨rfl, ((C7_attach_detach_refcount.1 (newTrackLifecycle [])).2.1 rfl)⟩

/-- C10's counterexample: calling `Detached` with the counter at 0 moves the
counter to −1 but emits nothing — it does not emit "detached" as the claim
states (the check `counter == 0` after the decrement fails at −1). -/
theorem C10_counterexample :
    (Detached (newTrackLifecycle [])).1.counter = -1 ∧
    ¬ (Detached (newTrackLifecycle [])).2 = [Ev.detached] := by
  exact ⟨rfl, by decide⟩

/-- C10 (amended): the counter is not clamped at zero — `Detached` at counter
0 moves it to −1 and emits nothing ("detached" fires only when the counter
becomes exactly 0, i.e. from 1); after such an unbalanced `Detached`, a
subsequent `Attached` brings the counter from −1 to 0 without emitting
"attached", so one extra `Detached` permanently shifts which later calls emit
notifications. -/
theorem C10_unclamped_counter :
    (∀ s : TrackLifecycle, (Detached s).1.counter = s.counter - 1) ∧
    (∀ s : TrackLifecycle, s.counter = 0 →
      (Detached s).1.counter = -1 ∧ (Detached s).2 = []) ∧
    (∀ s : TrackLifecycle, s.counter = -1 →
      (Attached s).1.counter = 0 ∧ (Attached s).2 = []) ∧
    (runCalls (newTrackLifecycle [])
      [TrackCall.detach, TrackCall.attach, TrackCall.attach]).2 = [Ev.attached] ∧
    (runCalls (newTrackLifecycle [])
      [TrackCall.detach, TrackCall.attach, TrackCall.attach, TrackCall.detach]).2
      = [Ev.attached, Ev.detached] ∧
    (runCalls (newTrackLifecycle [])
      [TrackCall.attach, TrackCall.attach]).2 = [Ev.attached] ∧
    (runCalls (newTrackLifecycle [])
      [TrackCall.attach, TrackCall.attach, TrackCall.detach]).2 = [Ev.attached] := by
  refine ⟨fun s => rfl, ?_, ?_, by decide, by decide, by decide, by decide⟩
  · intro s h
    refine ⟨by simp [Detached, h], ?_⟩
    simp only [Detached]; rw [if_neg (by omega)]
  · intro s h
    refine ⟨by simp [Attached, h], ?_⟩
    simp only [Attached]; rw [if_neg (by omega)]

theorem C10_witness :
    (newTrackLifecycle []).counter = 0 ∧
    (Detached (newTrackLifecycle [])).1.counter = -1 ∧
    (Detached (newTrackLifecycle [])).2 = [] :=
  ⟨rfl, (C10_unclamped_counter.2.1 (newTrackLifecycle []) rfl).1,
    (C10_unclamped_counter.2.1 (newTrackLifecycle []) rfl).2⟩

/-- C8: for track, stream and session alike, the first `Stop` emits "stopped"
exactly once and clears the receiver/transport/session reference, and a second
`Stop` is a no-op emitting nothing and changing nothing. -/
theorem C8_stop_idempotent :
    (∀ t : TrackLifecycle, t.hasReceiver = true →
      (trackStop t).2 = [Ev.stopped] ∧ (trackStop t).1.hasReceiver = false ∧
      (trackStop t).1.encodingIds = none) ∧
    (∀ t : TrackLifecycle,
      trackStop (trackStop t).1 = ((trackStop t).1, []) ∧
      ((trackStop t).2 ++ (trackStop (trackStop t).1).2).count Ev.stopped
        = (if t.hasReceiver then 1 else 0)) ∧
    (∀ s : StreamLifecycle, s.hasTransport = true →
      (streamStop s).2 = [Ev.stopped] ∧ (streamStop s).1.hasTransport = false ∧
      (streamStop s).1.tracks = []) ∧
    (∀ s : StreamLifecycle,
      streamStop (streamStop s).1 = ((streamStop s).1, []) ∧
      ((streamStop s).2 ++ (streamStop (streamStop s).1).2).count Ev.stopped
        = (if s.hasTransport then 1 else 0)) ∧
    (∀ s : SessionLifecycle, s.hasSession = true →
      (sessionStop s).2 = [Ev.stopped] ∧ (sessionStop s).1.hasSession = false) ∧
    (∀ s : SessionLifecycle,
      sessionStop (sessionStop s).1 = ((sessionStop s).1, []) ∧
      ((sessionStop s).2 ++ (sessionStop (sessionStop s).1).2).count Ev.stopped
        = (if s.hasSession then 1 else 0)) := by
  refine ⟨?_, ?_, ?_, ?_, ?_, ?_⟩
  · intro t h; simp [trackStop, h]
  · intro t
    by_cases h : t.hasReceiver <;> simp [trackStop, h]
  · intro s h; simp [streamStop, h]
  · intro s
    by_cases h : s.hasTransport <;> simp [streamStop, h]
  · intro s h; simp [sessionStop, h]
  · intro s
    by_cases h : s.hasSession <;> simp [sessionStop, h]

theorem C8_witness :
    (newTrackLifecycle ["a"]).hasReceiver = true ∧
    ((trackStop (newTrackLifecycle ["a"])).2 = [Ev.stopped] ∧
     (trackStop (newTrackLifecycle ["a"])).1.hasReceiver = false ∧
     (trackStop (newTrackLifecycle ["a"])).1.encodingIds = none) ∧
    trackStop (trackStop (newTrackLifecycle ["a"])).1
      = ((trackStop (newTrackLifecycle ["a"])).1, []) :=
  ⟨rfl, C8_stop_idempotent.1 (newTrackLifecycle ["a"]) rfl,
    (C8_stop_idempotent.2.1 (newTrackLifecycle ["a"])).1⟩

/-! ## Source-Group Builder (`IncomingStream.CreateTrack`) -/

/-- One signaled per-rid encoding (`sdp.TrackEncodingInfo`): its rid and its
parameter map (notably "ssrc"). -/
structure TrackEncodingInfo where
  id : String
  params : List (String × String)
deriving Repr, DecidableEq

/-- One grouping relation (`sdp.SourceGroupInfo`): semantics ("FID",
"FEC-FR", "SIM") and the related SSRCs. -/
structure SourceGroupInfo where
  semantics : String
  ssrcs : List Nat
deriving Repr, DecidableEq

/-- The wire-level track description (`sdp.TrackInfo`) as read by
`CreateTrack`. -/
structure TrackInfo where
  id : String
  media : String
  mediaId : String
  ssrcs : List Nat
  encodings : List (List TrackEncodingInfo)
  groups : List SourceGroupInfo
deriving Repr, DecidableEq

/-- Go `strconv.ParseUint(s, 10, 32)`: digits only, nonempty, no sign, value
below `2 ^ 32`; `none` is Go's error return. -/
def parseSsrc (s : String) : Option Nat :=
  if s.length = 0 then none
  else if s.data.all (fun c => c.isDigit) then
    let v := s.data.foldl (fun acc c => acc * 10 + (c.toNat - 48)) 0
    if v < 2 ^ 32 then some v else none
  else none

/-- An `RTPIncomingSourceGroup` as configured by `CreateTrack` (Go zero
values as defaults; an SSRC of 0 means "unset"). -/
structure BuiltGroup where
  rid : String := ""
  mid : String := ""
  mediaSsrc : Nat := 0
  rtxSsrc : Nat := 0
  fecSsrc : Nat := 0
deriving Repr, DecidableEq

/-- One iteration of the companion-resolution loop: when the relation's first
SSRC matches the group's media SSRC, bind the rtx (FID) or fec (FEC-FR)
sub-source to the relation's second SSRC.  (The sdp library guarantees 2+
SSRCs per relation; a second SSRC is read with default 0.) -/
def applyGroup (acc : BuiltGroup) (grp : SourceGroupInfo) : BuiltGroup :=
  if grp.ssrcs ≠ [] ∧ grp.ssrcs.headD 0 = acc.mediaSsrc then
    let acc1 := if grp.semantics = "FID"
      then { acc with rtxSsrc := grp.ssrcs.getD 1 0 } else acc
    if grp.semantics = "FEC-FR"
      then { acc1 with fecSsrc := grp.ssrcs.getD 1 0 } else acc1
  else acc

/-- Scan all grouping relations for FID/FEC-FR companions of the group's
media SSRC. -/
def resolveCompanions (groups : List SourceGroupInfo) (g : BuiltGroup) : BuiltGroup :=
  groups.foldl applyGroup g

/-- Go `track.GetSourceGroup(sem)`: first relation with those semantics. -/
def getSourceGroup (t : TrackInfo) (sem : String) : Option SourceGroupInfo :=
  t.groups.find? (fun g => g.semantics == sem)

/-- Go map insert: overwrite the existing key or append a new entry. -/
def updateAssoc {α : Type} (m : List (String × α)) (k : String) (v : α) :
    List (String × α) :=
  if m.any (fun e => e.1 == k) then
    m.map (fun e => if e.1 == k then (k, v) else e)
  else m ++ [(k, v)]

/-- The encoding's "ssrc" parameter, when present. -/
def encSsrcParam (e : TrackEncodingInfo) : Option String :=
  (e.params.find? (fun p => p.1 == "ssrc")).map Prod.snd

/-- Whether the encoding carries a non-numeric "ssrc" parameter (the case
`CreateTrack` logs and skips). -/
def encodingMalformed (e : TrackEncodingInfo) : Bool :=
  match encSsrcParam e with
  | none => false
  | some s => (parseSsrc s).isNone

/-- The group `CreateTrack` builds for one well-formed rid encoding: rid and
media-stream id set, and when an "ssrc" parameter is present, the media
sub-source bound to it and FID/FEC-FR companions resolved.  (Go calls
`SetMid` only when the mid is nonempty; the resulting value is the same.) -/
def buildRidGroup (t : TrackInfo) (e : TrackEncodingInfo) : BuiltGroup :=
  let g0 : BuiltGroup := { rid := e.id, mid := t.mediaId }
  match encSsrcParam e with
  | none => g0
  | some s =>
    match parseSsrc s with
    | none => g0
    | some v => resolveCompanions t.groups { g0 with mediaSsrc := v }

/-- Accumulator of the builder: groups created (calls to
`NewRTPIncomingSourceGroup`), groups registered with the transport
(`AddIncomingSourceGroup` calls, in order), and the `sources` map. -/
structure BuildAcc where
  created : Nat
  registered : List BuiltGroup
  sources : List (String × BuiltGroup)
deriving Repr, DecidableEq

/-- One iteration of the rid-based branch of `CreateTrack`: a group object is
always created; on a malformed "ssrc" parameter the code logs and `continue`s
(no registration, no keying); otherwise the group is registered and keyed by
rid. -/
def buildRidStep (t : TrackInfo) (acc : BuildAcc) (e : TrackEncodingInfo) : BuildAcc :=
  let g0 : BuiltGroup := { rid := e.id, mid := t.mediaId }
  match encSsrcParam e with
  | none =>
    { created := acc.created + 1, registered := acc.registered ++ [g0],
      sources := updateAssoc acc.sources e.id g0 }
  | some s =>
    match parseSsrc s with
    | none => { acc with created := acc.created + 1 }
    | some v =>
      let g1 := resolveCompanions t.groups { g0 with mediaSsrc := v }
      { created := acc.created + 1, registered := acc.registered ++ [g1],
        sources := updateAssoc acc.sources e.id g1 }

/-- Which of the three SSRC-grouping strategies `CreateTrack` took. -/
inductive Strategy
  | ridBased
  | simGroup
  | flatFallback
deriving Repr, DecidableEq

/-- Result of the source-construction phase of `CreateTrack`. -/
structure BuildResult where
  created : Nat
  registered : List BuiltGroup
  sources : List (String × BuiltGroup)
  strategy : Strategy
deriving Repr, DecidableEq

/-- One iteration of the SIM branch: bind the media sub-source to the j-th
SIM SSRC, resolve companions, register, and key by the stringified position. -/
def buildSimStep (t : TrackInfo) (acc : BuildAcc) (je : Nat × Nat) : BuildAcc :=
  let g := resolveCompanions t.groups { mediaSsrc := je.2 }
  { created := acc.created + 1, registered := acc.registered ++ [g],
    sources := updateAssoc acc.sources (toString je.1) g }

/-- The source-construction phase of `IncomingStream.CreateTrack`: rid-based
encodings first, else a "SIM" group, else the flat fallback bound to the
first signaled SSRC. -/
def buildSources (t : TrackInfo) : BuildResult :=
  if 0 < t.encodings.length then
    let r := t.encodings.flatten.foldl (buildRidStep t) ⟨0, [], []⟩
    { created := r.created, registered := r.registered, sources := r.sources,
      strategy := Strategy.ridBased }
  else
    match getSourceGroup t "SIM" with
    | some SIM =>
      let r := SIM.ssrcs.enum.foldl (buildSimStep t) ⟨0, [], []⟩
      { created := r.created, registered := r.registered, sources := r.sources,
        strategy := Strategy.simGroup }
    | none =>
      let g0 : BuiltGroup := { mediaSsrc := t.ssrcs.headD 0 }
      let g1 := { g0 with rtxSsrc :=
        match getSourceGroup t "FID" with
        | some f => f.ssrcs.getD 1 0
        | none => 0 }
      let g2 := { g1 with fecSsrc :=
        match getSourceGroup t "FEC-FR" with
        | some f => f.ssrcs.getD 1 0
        | none => 0 }
      { created := 1, registered := [g2], sources := [("", g2)],
        strategy := Strategy.flatFallback }

/-- C4: strategy selection is a strict first-match decision — rid-based
encodings present means the rid strategy is taken (never SIM or the flat
fallback, even when a SIM group is also present); the SIM strategy only when
no rid encodings are present; the flat fallback (exactly one group keyed by
the empty string, bound to the first signaled SSRC) only when neither is
present. -/
theorem C4_strategy_selection (t : TrackInfo) :
    (t.encodings ≠ [] → (buildSources t).strategy = Strategy.ridBased) ∧
    (t.encodings = [] → ∀ SIM, getSourceGroup t "SIM" = some SIM →
      (buildSources t).strategy = Strategy.simGroup) ∧
    (t.encodings = [] → getSourceGroup t "SIM" = none →
      (buildSources t).strategy = Strategy.flatFallback ∧
      ∃ g : BuiltGroup, (buildSources t).sources = [("", g)] ∧
        g.mediaSsrc = t.ssrcs.headD 0) := by
  refine ⟨?_, ?_, ?_⟩
  · intro h
    have hl : 0 < t.encodings.length := List.length_pos.mpr h
    simp [buildSources, hl]
  · intro h SIM hSIM
    have hl : ¬ 0 < t.encodings.length := by simp [h]
    simp [buildSources, hl, hSIM]
  · intro h hSIM
    have hl : ¬ 0 < t.encodings.length := by simp [h]
    refine ⟨by simp [buildSources, hl, hSIM], ?_⟩
    refine ⟨{ mediaSsrc := t.ssrcs.headD 0,
              rtxSsrc :=
                match getSourceGroup t "FID" with
                | some f => f.ssrcs.getD 1 0
                | none => 0,
              fecSsrc :=
                match getSourceGroup t "FEC-FR" with
                | some f => f.ssrcs.getD 1 0
                | none => 0 }, ?_, rfl⟩
    simp [buildSources, hl, hSIM]

/-- A rid-based description that also carries a SIM group. -/
def c4rid : TrackInfo :=
  { id := "t1", media := "video", mediaId := "m0", ssrcs := [111],
    encodings := [[{ id := "hi", params := [("ssrc", "1001")] }]],
    groups := [{ semantics := "SIM", ssrcs := [1001, 1002] }] }

/-- A description with no rid encodings but a SIM group. -/
def c4sim : TrackInfo :=
  { id := "t2", media := "video", mediaId := "", ssrcs := [5, 6],
    encodings := [], groups := [{ semantics := "SIM", ssrcs := [5, 6] }] }

/-- A description with neither rid encodings nor a SIM group. -/
def c4flat : TrackInfo :=
  { id := "t3", media := "video", mediaId := "", ssrcs := [42],
    encodings := [], groups := [] }

theorem C4_witness :
    c4rid.encodings ≠ [] ∧
    (buildSources c4rid).strategy = Strategy.ridBased ∧
    c4sim.encodings = [] ∧
    getSourceGroup c4sim "SIM" = some { semantics := "SIM", ssrcs := [5, 6] } ∧
    (buildSources c4sim).strategy = Strategy.simGroup ∧
    c4flat.encodings = [] ∧
    getSourceGroup c4flat "SIM" = none ∧
    (buildSources c4flat).strategy = Strategy.flatFallback :=
  ⟨by decide, (C4_strategy_selection c4rid).1 (by decide),
   rfl, by decide,
   (C4_strategy_selection c4sim).2.1 rfl { semantics := "SIM", ssrcs := [5, 6] } (by decide),
   rfl, by decide,
   ((C4_strategy_selection c4flat).2.2 rfl (by decide)).1⟩

/-- Closed form of the rid-branch fold: every encoding creates a group object;
only the well-formed ones are registered (in order) and keyed by rid. -/
theorem buildRid_fold (t : TrackInfo) (es : List TrackEncodingInfo) : ∀ acc : BuildAcc,
    (es.foldl (buildRidStep t) acc).created = acc.created + es.length ∧
    (es.foldl (buildRidStep t) acc).registered
      = acc.registered ++ (es.filter (fun e => !encodingMalformed e)).map (buildRidGroup t) ∧
    (es.foldl (buildRidStep t) acc).sources
      = (es.filter (fun e => !encodingMalformed e)).foldl
          (fun m e => updateAssoc m e.id (buildRidGroup t e)) acc.sources := by
  induction es with
  | nil => intro acc; simp
  | cons e es ih =>
    intro acc
    rw [List.foldl_cons]
    obtain ⟨i1, i2, i3⟩ := ih (buildRidStep t acc e)
    cases hp : encSsrcParam e with
    | none =>
      have hm : (!encodingMalformed e) = true := by simp [encodingMalformed, hp]
      have hstep : buildRidStep t acc e =
          { created := acc.created + 1,
            registered := acc.registered ++ [buildRidGroup t e],
            sources := updateAssoc acc.sources e.id (buildRidGroup t e) } := by
        simp [buildRidStep, buildRidGroup, hp]
      refine ⟨?_, ?_, ?_⟩
      · rw [i1, hstep]; simp; omega
      · rw [i2, hstep]; simp [List.filter_cons, hm]
      · rw [i3, hstep]; simp [List.filter_cons, hm]
    | some s =>
      cases hps : parseSsrc s with
      | none =>
        have hm : (!encodingMalformed e) = false := by
          simp [encodingMalformed, hp, hps]
        have hstep : buildRidStep t acc e = { acc with created := acc.created + 1 } := by
          simp [buildRidStep, hp, hps]
        refine ⟨?_, ?_, ?_⟩
        · rw [i1, hstep]; simp; omega
        · rw [i2, hstep]; simp [List.filter_cons, hm]
        · rw [i3, hstep]; simp [List.filter_cons, hm]
      | some v =>
        have hm : (!encodingMalformed e) = true := by
          simp [encodingMalformed, hp, hps]
        have hstep : buildRidStep t acc e =
            { created := acc.created + 1,
              registered := acc.registered ++ [buildRidGroup t e],
              sources := updateAssoc acc.sources e.id (buildRidGroup t e) } := by
          simp [buildRidStep, buildRidGroup, hp, hps]
        refine ⟨?_, ?_, ?_⟩
        · rw [i1, hstep]; simp; omega
        · rw [i2, hstep]; simp [List.filter_cons, hm]
        · rw [i3, hstep]; simp [List.filter_cons, hm]

/-- Any entry of a map insert either carries the inserted key or was already
in the map. -/
theorem updateAssoc_keys {α : Type} (m : List (String × α)) (k : String) (v : α)
    (p : String × α) (hp : p ∈ updateAssoc m k v) : p.1 = k ∨ p ∈ m := by
  unfold updateAssoc at hp
  by_cases hk : m.any (fun e => e.1 == k)
  · rw [if_pos hk] at hp
    obtain ⟨q, hq, hfq⟩ := List.mem_map.mp hp
    by_cases hq1 : q.1 == k
    · rw [if_pos hq1] at hfq
      left; rw [← hfq]
    · rw [if_neg hq1] at hfq
      right; rw [← hfq]; exact hq
  · rw [if_neg hk] at hp
    rcases List.mem_append.mp hp with h | h
    · right; exact h
    · left
      have : p = (k, v) := by simpa using h
      rw [this]

/-- Keys produced by folding map inserts over a list of encodings all come
from those encodings' rids or from the initial map. -/
theorem foldGood_keys (t : TrackInfo) (es : List TrackEncodingInfo) :
    ∀ m : List (String × BuiltGroup),
    ∀ p ∈ es.foldl (fun m e => updateAssoc m e.id (buildRidGroup t e)) m,
      p.1 ∈ es.map TrackEncodingInfo.id ∨ p ∈ m := by
  induction es with
  | nil => intro m p hp; right; exact hp
  | cons e es ih =>
    intro m p hp
    rw [List.foldl_cons] at hp
    rcases ih (updateAssoc m e.id (buildRidGroup t e)) p hp with h | h
    · left; simp [h]
    · rcases updateAssoc_keys m e.id (buildRidGroup t e) p h with h2 | h2
      · left; simp [h2]
      · right; exact h2

/-- C9 (amended): for a rid-based description, a non-numeric "ssrc" parameter
makes `CreateTrack` log a warning and skip only that encoding — a group
object is still allocated for it, but it is never registered with the
transport and never keyed in the sources map; construction continues with the
remaining encodings and a track with zero resolvable encodings is a valid
result. -/
theorem C9_malformed_ssrc_skipped (t : TrackInfo) (henc : t.encodings ≠ []) :
    (buildSources t).strategy = Strategy.ridBased ∧
    (buildSources t).created = t.encodings.flatten.length ∧
    (buildSources t).registered
      = (t.encodings.flatten.filter (fun e => !encodingMalformed e)).map (buildRidGroup t) ∧
    (buildSources t).sources
      = (t.encodings.flatten.filter (fun e => !encodingMalformed e)).foldl
          (fun m e => updateAssoc m e.id (buildRidGroup t e)) [] ∧
    (∀ rid : String, (∀ e ∈ t.encodings.flatten, ¬ encodingMalformed e → e.id ≠ rid) →
      ∀ p ∈ (buildSources t).sources, p.1 ≠ rid) ∧
    ((∀ e ∈ t.encodings.flatten, encodingMalformed e) →
      (buildSources t).registered = [] ∧ (buildSources t).sources = []) := by
  have hl : 0 < t.encodings.length := List.length_pos.mpr henc
  obtain ⟨f1, f2, f3⟩ := buildRid_fold t t.encodings.flatten ⟨0, [], []⟩
  have hb : buildSources t =
      { created := (t.encodings.flatten.foldl (buildRidStep t) ⟨0, [], []⟩).created,
        registered := (t.encodings.flatten.foldl (buildRidStep t) ⟨0, [], []⟩).registered,
        sources := (t.encodings.flatten.foldl (buildRidStep t) ⟨0, [], []⟩).sources,
        strategy := Strategy.ridBased } := by
    simp [buildSources, hl]
  rw [hb]
  refine ⟨rfl, by simpa using f1, by simpa using f2, by simpa using f3, ?_, ?_⟩
  · intro rid hr p hp
    simp only at hp
    rw [f3] at hp
    rcases foldGood_keys t _ _ p hp with h | h
    · obtain ⟨e, he, heid⟩ := List.mem_map.mp h
      have hgood := List.of_mem_filter he
      have := hr e (List.mem_of_mem_filter he) (by simpa using hgood)
      rw [heid] at this
      exact fun hcon => this hcon
    · simp at h
  · intro hall
    have hfil : t.encodings.flatten.filter (fun e => !encodingMalformed e) = [] := by
      rw [List.filter_eq_nil_iff]
      intro e he
      simp [hall e he]
    constructor
    · simp only
      rw [f2, hfil]
      simp
    · simp only
      rw [f3, hfil]
      simp

/-- A description whose only encoding carries the non-numeric ssrc "abc". -/
def c9bad : TrackInfo :=
  { id := "t9", media := "video", mediaId := "", ssrcs := [],
    encodings := [[{ id := "r1", params := [("ssrc", "abc")] }]],
    groups := [] }

/-- C9's counterexample: for a rid encoding with non-numeric "ssrc", the code
still allocates a source-group object (one `NewRTPIncomingSourceGroup` call)
before the parse failure — the claim's "no source group is created for it" is
false — although nothing is registered or keyed. -/
theorem C9_counterexample :
    (buildSources c9bad).created = 1 ∧
    ¬ (buildSources c9bad).created = 0 ∧
    (buildSources c9bad).registered = [] ∧
    (buildSources c9bad).sources = [] := by decide

/-- A description with one malformed and one well-formed encoding. -/
def c9mixed : TrackInfo :=
  { id := "t9b", media := "video", mediaId := "", ssrcs := [],
    encodings := [[{ id := "bad", params := [("ssrc", "12x")] },
                   { id := "good", params := [("ssrc", "2002")] }]],
    groups := [{ semantics := "FID", ssrcs := [2002, 2003] }] }

theorem C9_witness :
    c9mixed.encodings ≠ [] ∧
    ((buildSources c9mixed).strategy = Strategy.ridBased ∧
     (buildSources c9mixed).created = 2 ∧
     (buildSources c9mixed).registered
       = [buildRidGroup c9mixed { id := "good", params := [("ssrc", "2002")] }] ∧
     (buildSources c9mixed).sources
       = [("good", buildRidGroup c9mixed { id := "good", params := [("ssrc", "2002")] })] ∧
     ∀ p ∈ (buildSources c9mixed).sources, p.1 ≠ "bad") := by
  have h := C9_malformed_ssrc_skipped c9mixed (by decide)
  refine ⟨by decide, h.1, ?_, ?_, ?_, ?_⟩
  · rw [h.2.1]; decide
  · rw [h.2.2.1]; decide
  · rw [h.2.2.2.1]; decide
  · exact h.2.2.2.2.1 "bad" (by decide)

/-! ## Stats Cache (`IncomingStreamTrack.GetStats`) -/

/-- `IncomingAllStats` (field for field from the Go struct; `AvgWaitTime` is a
Go `float64` that is only ever copied verbatim, modelled opaquely as `Int`;
Go zero values as defaults). -/
structure IncomingAllStats where
  Rtt : Nat
  MinWaitTime : Nat
  MaxWaitTime : Nat
  AvgWaitTime : Int
  Media : IncomingStats
  Rtx : IncomingStats
  Fec : IncomingStats
  Bitrate : Nat
  Total : Nat
  Remb : Nat := 0
  SimulcastIdx : Int := 0
  timestamp : Int
deriving Repr, DecidableEq

/-- Snapshot of one external `RTPIncomingSourceGroup` as read by `GetStats`
right after its `Update()` call: the three sub-sources and the rtt/wait-time
counters. -/
structure RTPIncomingSourceGroup where
  media : RTPIncomingSource
  rtx : RTPIncomingSource
  fec : RTPIncomingSource
  Rtt : Nat
  MinWaitedTime : Nat
  MaxWaitedTime : Nat
  AvgWaitedTime : Int
deriving Repr, DecidableEq

/-- The freshness window in nanoseconds (Go literal `200000000`). -/
def freshnessWindowNs : Int := 200000000

/-- The new `IncomingAllStats` built by `GetStats` when an entry is refreshed
at time `now` (Go reads `time.Now()` again for the timestamp; the two reads
are modelled as one instant). -/
def freshStats (now : Int) (g : RTPIncomingSourceGroup) : IncomingAllStats :=
  let media := getStatsFromIncomingSource g.media
  let fec := getStatsFromIncomingSource g.fec
  let rtx := getStatsFromIncomingSource g.rtx
  { Rtt := g.Rtt,
    MinWaitTime := g.MinWaitedTime,
    MaxWaitTime := g.MaxWaitedTime,
    AvgWaitTime := g.AvgWaitedTime,
    Media := media,
    Rtx := rtx,
    Fec := fec,
    Bitrate := media.Bitrate,
    Total := addU (addU media.Bitrate fec.Bitrate) rtx.Bitrate,
    timestamp := now }

/-- The per-encoding refresh decision of `GetStats`: recompute when no cached
entry exists or the cached entry is older than the freshness window;
otherwise keep the cached entry untouched. -/
def refreshEntry (now : Int) (g : RTPIncomingSourceGroup) :
    Option IncomingAllStats → IncomingAllStats
  | none => freshStats now g
  | some st => if freshnessWindowNs < now - st.timestamp then freshStats now g else st

/-- Go map lookup (`m[k]`, `nil` when absent). -/
def lookupAssoc {α : Type} (m : List (String × α)) (k : String) : Option α :=
  (m.find? (fun e => e.1 == k)).map Prod.snd

/-- The first phase of `GetStats`: walk the encodings, refreshing or reusing
each encoding's cache entry. -/
def refreshPhase (now : Int) (encodings : List (String × RTPIncomingSourceGroup))
    (stats : List (String × IncomingAllStats)) : List (String × IncomingAllStats) :=
  encodings.foldl
    (fun m e => updateAssoc m e.1 (refreshEntry now e.2 (lookupAssoc m e.1))) stats

/-- The descending-bitrate order `sort.Slice` is given
(`stats[i].Bitrate > stats[j].Bitrate`); entries are tagged with their cache
position so ranks can be mapped back. -/
def brGe (a b : Nat × Nat) : Prop := b.2 ≤ a.2

instance : DecidableRel brGe := fun a b => inferInstanceAs (Decidable (b.2 ≤ a.2))

instance : IsTotal (Nat × Nat) brGe := ⟨fun a b => (Nat.le_total b.2 a.2).imp id id⟩

instance : IsTrans (Nat × Nat) brGe :=
  ⟨fun _ _ _ h1 h2 => Nat.le_trans h2 h1⟩

/-- The sorted (position, bitrate) slice of `GetStats`'s ranking phase. -/
def sortDescPairs (l : List (Nat × Nat)) : List (Nat × Nat) :=
  List.insertionSort brGe l

/-- The ranking loop of `GetStats` over the sorted slice: entries with
positive bitrate get ranks `n+1, n+2, …` in order, zero-bitrate entries get
−1.  Each result tuple is (cache position, bitrate, assigned index). -/
def ranksFrom : Nat → List (Nat × Nat) → List (Nat × Nat × Int)
  | _, [] => []
  | n, e :: es =>
    if 0 < e.2 then (e.1, e.2, ((n + 1 : Nat) : Int)) :: ranksFrom (n + 1) es
    else (e.1, e.2, -1) :: ranksFrom n es

/-- Read back the index assigned to cache position `p`. -/
def idxLookup (a : List (Nat × Nat × Int)) (p : Nat) : Int :=
  match a.find? (fun e => e.1 == p) with
  | some e => e.2.2
  | none => 0

/-- The simulcast index each cache position receives, given the cache
entries' bitrates in cache order. -/
def simulcastIndices (brs : List Nat) : List Int :=
  let assigned := ranksFrom 0 (sortDescPairs brs.enum)
  (List.range brs.length).map (idxLookup assigned)

/-- Propagate an entry's simulcast index onto every layer of its media
stats. -/
def setLayerIdx (idx : Int) (s : IncomingStats) : IncomingStats :=
  { s with Layers := s.Layers.map (fun l => { l with SimulcastIdx := idx }) }

/-- Assign an entry's simulcast index (and propagate it onto its media
layers). -/
def setIdx (idx : Int) (a : IncomingAllStats) : IncomingAllStats :=
  { a with SimulcastIdx := idx, Media := setLayerIdx idx a.Media }

/-- The ranking phase of `GetStats`: every cache entry receives the simulcast
index of its bitrate rank. -/
def rankCache (cache : List (String × IncomingAllStats)) :
    List (String × IncomingAllStats) :=
  let idxs := simulcastIndices (cache.map (fun e => e.2.Bitrate))
  (cache.zip idxs).map (fun ei => (ei.1.1, setIdx ei.2 ei.1.2))

/-- `IncomingStreamTrack.GetStats`: refresh-or-reuse each encoding's entry,
then recompute the simulcast index across the entire cache. -/
def GetStats (now : Int) (encodings : List (String × RTPIncomingSourceGroup))
    (stats : List (String × IncomingAllStats)) : List (String × IncomingAllStats) :=
  rankCache (refreshPhase now encodings stats)

theorem mem_updateAssoc {α : Type} {m : List (String × α)} {k : String} {v : α}
    {p : String × α} (hp : p ∈ updateAssoc m k v) :
    (p.1 = k ∧ p.2 = v) ∨ (p ∈ m ∧ p.1 ≠ k) := by
  unfold updateAssoc at hp
  by_cases hk : m.any (fun e => e.1 == k)
  · rw [if_pos hk] at hp
    obtain ⟨q, hq, hfq⟩ := List.mem_map.mp hp
    by_cases hq1 : q.1 == k
    · rw [if_pos hq1] at hfq
      left; rw [← hfq]; exact ⟨rfl, rfl⟩
    · rw [if_neg hq1] at hfq
      right
      refine ⟨hfq ▸ hq, ?_⟩
      rw [← hfq]
      simpa using hq1
  · rw [if_neg hk] at hp
    rcases List.mem_append.mp hp with h | h
    · right
      refine ⟨h, ?_⟩
      rw [List.any_eq_true] at hk
      push_neg at hk
      have := hk p h
      simpa using this
    · left
      have : p = (k, v) := by simpa using h
      rw [this]; exact ⟨rfl, rfl⟩

theorem updateAssoc_keyList {α : Type} (m : List (String × α)) (k : String) (v : α) :
    (updateAssoc m k v).map Prod.fst
      = if m.any (fun e => e.1 == k) then m.map Prod.fst
        else m.map Prod.fst ++ [k] := by
  unfold updateAssoc
  by_cases hk : m.any (fun e => e.1 == k)
  · rw [if_pos hk, if_pos hk, List.map_map]
    refine List.map_congr_left ?_
    intro e _
    by_cases he : e.1 == k
    · simp only [Function.comp_apply, if_pos he]
      have : e.1 = k := by simpa using he
      simp [this]
    · have he' : ¬ e.1 = k := by simpa using he
      simp [Function.comp_apply, he']
  · rw [if_neg hk, if_neg hk]
    simp

theorem updateAssoc_nodupKeys {α : Type} (m : List (String × α)) (k : String) (v : α)
    (hm : (m.map Prod.fst).Nodup) : ((updateAssoc m k v).map Prod.fst).Nodup := by
  rw [updateAssoc_keyList]
  by_cases hk : m.any (fun e => e.1 == k)
  · rwa [if_pos hk]
  · rw [if_neg hk]
    rw [List.nodup_append]
    refine ⟨hm, List.nodup_singleton k, ?_⟩
    intro a ha hb
    have ha' : a = k := by simpa using hb
    subst ha'
    obtain ⟨e, he, hek⟩ := List.mem_map.mp ha
    rw [List.any_eq_true] at hk
    push_neg at hk
    have := hk e he
    rw [hek] at this
    simp at this

theorem lookupAssoc_mem {α : Type} {m : List (String × α)} {k : String}
    (h : k ∈ m.map Prod.fst) :
    ∃ v, lookupAssoc m k = some v ∧ (k, v) ∈ m := by
  have hex : ∃ e ∈ m, (fun e : String × α => e.1 == k) e := by
    obtain ⟨e, he, hek⟩ := List.mem_map.mp h
    exact ⟨e, he, by simp [hek]⟩
  obtain ⟨e, hfind⟩ := List.find?_isSome.mpr hex |> Option.isSome_iff_exists.mp
  have hmem : e ∈ m := List.mem_of_find?_eq_some hfind
  have hpe := List.find?_some hfind
  have he1 : e.1 = k := by simpa using hpe
  refine ⟨e.2, ?_, ?_⟩
  · simp [lookupAssoc, hfind]
  · rw [← he1]; exact hmem

theorem updateAssoc_lookup_self {α : Type} (m : List (String × α)) (k : String) (v : α)
    (hnd : (m.map Prod.fst).Nodup) (hl : lookupAssoc m k = some v) :
    updateAssoc m k v = m := by
  induction m with
  | nil => simp [lookupAssoc] at hl
  | cons x xs ih =>
    rw [List.map_cons, List.nodup_cons] at hnd
    obtain ⟨hx_not, hnd'⟩ := hnd
    by_cases hx : x.1 == k
    · have hx1 : x.1 = k := by simpa using hx
      have hv : v = x.2 := by
        have hfind : List.find? (fun e => e.1 == k) (x :: xs) = some x :=
          List.find?_cons_of_pos _ hx
        simp [lookupAssoc, hfind] at hl
        exact hl.symm
      subst hv
      have hany : (x :: xs).any (fun e => e.1 == k) := by simp [hx]
      unfold updateAssoc
      rw [if_pos hany, List.map_cons, if_pos hx]
      have hxs : xs.map (fun e => if e.1 == k then (k, x.2) else e) = xs := by
        have h1 : xs.map (fun e => if e.1 == k then (k, x.2) else e) = xs.map id := by
          refine List.map_congr_left ?_
          intro e he
          have hne : ¬ e.1 = k := by
            intro hek
            exact hx_not (hx1 ▸ hek ▸ List.mem_map_of_mem Prod.fst he)
          rw [if_neg (by simpa using hne)]
          rfl
        rw [h1, List.map_id]
      rw [hxs]
      have hxeq : x = (k, x.2) := by
        rw [← hx1]
      rw [← hxeq]
    · have hfind : List.find? (fun e => e.1 == k) (x :: xs) =
          List.find? (fun e => e.1 == k) xs := List.find?_cons_of_neg _ hx
      have hl' : lookupAssoc xs k = some v := by
        simpa [lookupAssoc, hfind] using hl
      have hsome : (List.find? (fun e => e.1 == k) xs).isSome := by
        rcases hfx : List.find? (fun e => e.1 == k) xs with _ | w
        · simp [lookupAssoc, hfx] at hl'
        · rw [hfx]; rfl
      have hanyxs : xs.any (fun e => e.1 == k) := by
        obtain ⟨w, hw⟩ := Option.isSome_iff_exists.mp hsome
        have hwm := List.mem_of_find?_eq_some hw
        have hwp := List.find?_some hw
        exact List.any_eq_true.mpr ⟨w, hwm, hwp⟩
      have hih := ih hnd' hl'
      unfold updateAssoc at hih ⊢
      rw [if_pos hanyxs] at hih
      have hany : (x :: xs).any (fun e => e.1 == k) := by
        simp only [List.any_cons, Bool.or_eq_true]
        right; exact hanyxs
      rw [if_pos hany, List.map_cons, if_neg hx, hih]

theorem ranksFrom_fst : ∀ (n : Nat) (l : List (Nat × Nat)),
    (ranksFrom n l).map (fun q => q.1) = l.map Prod.fst := by
  intro n l
  induction l generalizing n with
  | nil => simp [ranksFrom]
  | cons x xs ih =>
    by_cases hx : 0 < x.2
    · simp [ranksFrom, if_pos hx, ih]
    · simp [ranksFrom, if_neg hx, ih]

theorem ranksFrom_mem_src : ∀ (n : Nat) (l : List (Nat × Nat)),
    ∀ q ∈ ranksFrom n l, (q.1, q.2.1) ∈ l := by
  intro n l
  induction l generalizing n with
  | nil => intro q hq; simp [ranksFrom] at hq
  | cons x xs ih =>
    intro q hq
    by_cases hx : 0 < x.2
    · rw [ranksFrom, if_pos hx] at hq
      rcases List.mem_cons.mp hq with rfl | hq'
      · exact List.mem_cons_self _ _
      · exact List.mem_cons_of_mem _ (ih (n + 1) q hq')
    · rw [ranksFrom, if_neg hx] at hq
      rcases List.mem_cons.mp hq with rfl | hq'
      · exact List.mem_cons_self _ _
      · exact List.mem_cons_of_mem _ (ih n q hq')

theorem ranksFrom_props : ∀ (n : Nat) (l : List (Nat × Nat)),
    ∀ q ∈ ranksFrom n l,
      (q.2.1 = 0 → q.2.2 = -1) ∧ (0 < q.2.1 → (n : Int) < q.2.2) := by
  intro n l
  induction l generalizing n with
  | nil => intro q hq; simp [ranksFrom] at hq
  | cons x xs ih =>
    intro q hq
    by_cases hx : 0 < x.2
    · rw [ranksFrom, if_pos hx] at hq
      rcases List.mem_cons.mp hq with rfl | hq'
      · refine ⟨fun h => ?_, fun _ => ?_⟩
        · exfalso
          have hx2 : x.2 = 0 := h
          omega
        · show (n : Int) < ((n + 1 : Nat) : Int)
          push_cast
          omega
      · obtain ⟨h1, h2⟩ := ih (n + 1) q hq'
        refine ⟨h1, fun hp => ?_⟩
        have := h2 hp
        push_cast at this ⊢
        omega
    · rw [ranksFrom, if_neg hx] at hq
      rcases List.mem_cons.mp hq with rfl | hq'
      · exact ⟨fun _ => rfl, fun hp => absurd hp hx⟩
      · exact ih n q hq'

theorem ranksFrom_of_mem : ∀ (n : Nat) (l : List (Nat × Nat)), ∀ pb ∈ l,
    ∃ q ∈ ranksFrom n l, q.1 = pb.1 ∧ q.2.1 = pb.2 := by
  intro n l
  induction l generalizing n with
  | nil => intro pb hpb; simp at hpb
  | cons x xs ih =>
    intro pb hpb
    by_cases hx : 0 < x.2
    · rcases List.mem_cons.mp hpb with rfl | hpb'
      · exact ⟨(pb.1, pb.2, ((n + 1 : Nat) : Int)),
          by rw [ranksFrom, if_pos hx]; exact List.mem_cons_self _ _, rfl, rfl⟩
      · obtain ⟨q, hq, hq1, hq2⟩ := ih (n + 1) pb hpb'
        exact ⟨q, by rw [ranksFrom, if_pos hx]; exact List.mem_cons_of_mem _ hq, hq1, hq2⟩
    · rcases List.mem_cons.mp hpb with rfl | hpb'
      · exact ⟨(pb.1, pb.2, -1),
          by rw [ranksFrom, if_neg hx]; exact List.mem_cons_self _ _, rfl, rfl⟩
      · obtain ⟨q, hq, hq1, hq2⟩ := ih n pb hpb'
        exact ⟨q, by rw [ranksFrom, if_neg hx]; exact List.mem_cons_of_mem _ hq, hq1, hq2⟩

theorem ranksFrom_all_zero : ∀ (n : Nat) (l : List (Nat × Nat)),
    (∀ pb ∈ l, pb.2 = 0) →
    (ranksFrom n l).map (fun q => q.2.2) = List.replicate l.length (-1) := by
  intro n l
  induction l generalizing n with
  | nil => intro _; simp [ranksFrom]
  | cons x xs ih =>
    intro hall
    have hx : ¬ 0 < x.2 := by
      have := hall x (List.mem_cons_self _ _)
      omega
    rw [ranksFrom, if_neg hx, List.map_cons, List.length_cons, List.replicate_succ]
    rw [ih n (fun pb hpb => hall pb (List.mem_cons_of_mem _ hpb))]

theorem ranksFrom_pos_ranks : ∀ (n : Nat) (l : List (Nat × Nat)), l.Pairwise brGe →
    ((ranksFrom n l).map (fun q => q.2.2)).filter (fun i => i ≠ -1)
      = (List.range (l.countP (fun e => 0 < e.2))).map (fun i => ((n + i + 1 : Nat) : Int)) := by
  intro n l
  induction l generalizing n with
  | nil => intro _; simp [ranksFrom]
  | cons x xs ih =>
    intro hp
    obtain ⟨hx_all, hp'⟩ := List.pairwise_cons.mp hp
    by_cases hx : 0 < x.2
    · rw [ranksFrom, if_pos hx, List.map_cons]
      have hcnt : (x :: xs).countP (fun e => 0 < e.2) = xs.countP (fun e => 0 < e.2) + 1 :=
        List.countP_cons_of_pos _ _ (by simpa using hx)
      rw [hcnt, List.range_succ_eq_map, List.map_cons, List.filter_cons]
      have hne : (((n + 1 : Nat) : Int) ≠ -1) := by push_cast; omega
      rw [if_pos (by simpa using hne)]
      rw [ih (n + 1) hp', List.map_map]
      congr 1
      refine List.map_congr_left ?_
      intro i _
      simp only [Function.comp_apply, Nat.succ_eq_add_one]
      congr 1
      omega
    · have hx0 : x.2 = 0 := by omega
      have hall : ∀ pb ∈ x :: xs, pb.2 = 0 := by
        intro pb hpb
        rcases List.mem_cons.mp hpb with rfl | hpb'
        · exact hx0
        · have := hx_all pb hpb'
          simp only [brGe] at this
          omega
      rw [ranksFrom_all_zero n (x :: xs) hall]
      have hcnt : (x :: xs).countP (fun e => 0 < e.2) = 0 := by
        rw [List.countP_eq_zero]
        intro pb hpb
        have := hall pb hpb
        simp [this]
      rw [hcnt]
      simp only [List.range_zero, List.map_nil]
      rw [List.filter_eq_nil_iff]
      intro a ha
      have : a = -1 := by
        have := List.eq_of_mem_replicate ha
        exact this
      simp [this]

theorem ranksFrom_strict : ∀ (n : Nat) (l : List (Nat × Nat)), l.Pairwise brGe →
    ∀ q1 ∈ ranksFrom n l, ∀ q2 ∈ ranksFrom n l,
      0 < q2.2.1 → q2.2.1 < q1.2.1 → q1.2.2 < q2.2.2 := by
  intro n l
  induction l generalizing n with
  | nil => intro _ q1 h1; simp [ranksFrom] at h1
  | cons x xs ih =>
    intro hp q1 h1 q2 h2 hq2pos hlt
    obtain ⟨hx_all, hp'⟩ := List.pairwise_cons.mp hp
    by_cases hx : 0 < x.2
    · rw [ranksFrom, if_pos hx] at h1 h2
      rcases List.mem_cons.mp h1 with rfl | h1' <;>
        rcases List.mem_cons.mp h2 with h2e | h2'
      · rw [h2e] at hlt hq2pos
        simp at hlt
      · have := (ranksFrom_props (n + 1) xs q2 h2').2 hq2pos
        simpa using this
      · rw [h2e] at hlt hq2pos
        have hmem := ranksFrom_mem_src (n + 1) xs q1 h1'
        have := hx_all (q1.1, q1.2.1) hmem
        simp only [brGe] at this
        simp only at hlt
        omega
      · exact ih (n + 1) hp' q1 h1' q2 h2' hq2pos hlt
    · rw [ranksFrom, if_neg hx] at h1 h2
      rcases List.mem_cons.mp h1 with rfl | h1' <;>
        rcases List.mem_cons.mp h2 with h2e | h2'
      · rw [h2e] at hq2pos
        simp only at hq2pos
        omega
      · simp only at hlt
        have hmem := ranksFrom_mem_src n xs q2 h2'
        have := hx_all (q2.1, q2.2.1) hmem
        simp only [brGe] at this
        omega
      · rw [h2e] at hq2pos
        simp only at hq2pos
        omega
      · exact ih n hp' q1 h1' q2 h2' hq2pos hlt

theorem idxLookup_eq : ∀ (a : List (Nat × Nat × Int)),
    (a.map (fun q => q.1)).Nodup → ∀ q ∈ a, idxLookup a q.1 = q.2.2 := by
  intro a
  induction a with
  | nil => intro _ q hq; simp at hq
  | cons x xs ih =>
    intro hnd q hq
    rw [List.map_cons, List.nodup_cons] at hnd
    obtain ⟨hx_not, hnd'⟩ := hnd
    rcases List.mem_cons.mp hq with rfl | hq'
    · have hfind : List.find? (fun e => e.1 == q.1) (q :: xs) = some q :=
        List.find?_cons_of_pos _ (by simp)
      simp [idxLookup, hfind]
    · have hne : ¬ (x.1 == q.1) = true := by
        intro h
        have hx1 : x.1 = q.1 := by simpa using h
        exact hx_not (hx1 ▸ List.mem_map_of_mem (fun q => q.1) hq')
      have hfind : List.find? (fun e => e.1 == q.1) (x :: xs) =
          List.find? (fun e => e.1 == q.1) xs := List.find?_cons_of_neg _ hne
      rw [idxLookup, hfind]
      exact ih hnd' q hq'

theorem countP_enumFrom (p : Nat → Bool) : ∀ (n : Nat) (l : List Nat),
    (List.enumFrom n l).countP (fun e => p e.2) = l.countP p := by
  intro n l
  induction l generalizing n with
  | nil => rfl
  | cons x xs ih => simp [List.enumFrom, List.countP_cons, ih]

theorem countP_enum (p : Nat → Bool) (l : List Nat) :
    l.enum.countP (fun e => p e.2) = l.countP p := countP_enumFrom p 0 l

theorem simulcastIndices_length (brs : List Nat) :
    (simulcastIndices brs).length = brs.length := by
  simp [simulcastIndices]

theorem simulcastIndices_nodupFst (brs : List Nat) :
    ((ranksFrom 0 (sortDescPairs brs.enum)).map (fun q => q.1)).Nodup := by
  have hperm : (sortDescPairs brs.enum).Perm brs.enum := List.perm_insertionSort brGe brs.enum
  rw [ranksFrom_fst 0 _]
  have hp : ((sortDescPairs brs.enum).map Prod.fst).Perm (brs.enum.map Prod.fst) := hperm.map _
  rw [List.Perm.nodup_iff hp, List.enum_map_fst]
  exact List.nodup_range _

theorem simulcastIndices_get (brs : List Nat) (k : Nat) (h : k < brs.length)
    (h2 : k < (simulcastIndices brs).length) :
    ∃ q ∈ ranksFrom 0 (sortDescPairs brs.enum),
      q.1 = k ∧ q.2.1 = brs.get ⟨k, h⟩ ∧
      (simulcastIndices brs).get ⟨k, h2⟩ = q.2.2 := by
  have hperm : (sortDescPairs brs.enum).Perm brs.enum := List.perm_insertionSort brGe brs.enum
  have henum_len : k < brs.enum.length := by simpa using h
  have hget : brs.enum.get ⟨k, henum_len⟩ = (k, brs.get ⟨k, h⟩) := by
    simp [List.get_eq_getElem, List.getElem_enum]
  have hmem_enum : (k, brs.get ⟨k, h⟩) ∈ brs.enum := by
    rw [← hget]; exact List.get_mem _ _ _
  have hmem_sorted : (k, brs.get ⟨k, h⟩) ∈ sortDescPairs brs.enum :=
    (hperm.mem_iff).mpr hmem_enum
  obtain ⟨q, hq, hq1, hq2⟩ := ranksFrom_of_mem 0 _ _ hmem_sorted
  have hq1' : q.1 = k := hq1
  have hq2' : q.2.1 = brs.get ⟨k, h⟩ := hq2
  refine ⟨q, hq, hq1', hq2', ?_⟩
  have hlookup : (simulcastIndices brs).get ⟨k, h2⟩
      = idxLookup (ranksFrom 0 (sortDescPairs brs.enum)) k := by
    simp [simulcastIndices, List.get_eq_getElem, List.getElem_map, List.getElem_range]
  rw [hlookup, ← hq1']
  exact idxLookup_eq _ (simulcastIndices_nodupFst brs) q hq

theorem simulcastIndices_zero (brs : List Nat) (k : Nat) (h : k < brs.length)
    (h2 : k < (simulcastIndices brs).length) (hz : brs.get ⟨k, h⟩ = 0) :
    (simulcastIndices brs).get ⟨k, h2⟩ = -1 := by
  obtain ⟨q, hq, _, hq2, hq3⟩ := simulcastIndices_get brs k h h2
  rw [hq3]
  exact (ranksFrom_props 0 _ q hq).1 (hq2.trans hz)

theorem simulcastIndices_pos (brs : List Nat) (k : Nat) (h : k < brs.length)
    (h2 : k < (simulcastIndices brs).length) (hp : 0 < brs.get ⟨k, h⟩) :
    1 ≤ (simulcastIndices brs).get ⟨k, h2⟩ := by
  obtain ⟨q, hq, _, hq2, hq3⟩ := simulcastIndices_get brs k h h2
  rw [hq3]
  have := (ranksFrom_props 0 _ q hq).2 (hq2 ▸ hp)
  omega

theorem simulcastIndices_nogaps (brs : List Nat) :
    ((simulcastIndices brs).filter (fun i => i ≠ -1)).Perm
      ((List.range (brs.countP (fun b => 0 < b))).map (fun i => ((i + 1 : Nat) : Int))) := by
  have hperm : (sortDescPairs brs.enum).Perm brs.enum := List.perm_insertionSort brGe brs.enum
  have hsorted : (sortDescPairs brs.enum).Pairwise brGe :=
    List.sorted_insertionSort brGe brs.enum
  have hfst := ranksFrom_fst 0 (sortDescPairs brs.enum)
  have hstep2 : (List.range brs.length).Perm ((sortDescPairs brs.enum).map Prod.fst) := by
    have := hperm.map Prod.fst
    rw [List.enum_map_fst] at this
    exact this.symm
  have hstep4 : ((sortDescPairs brs.enum).map Prod.fst).map
        (idxLookup (ranksFrom 0 (sortDescPairs brs.enum)))
      = (ranksFrom 0 (sortDescPairs brs.enum)).map (fun q => q.2.2) := by
    rw [← hfst, List.map_map]
    refine List.map_congr_left ?_
    intro q hq
    exact idxLookup_eq _ (simulcastIndices_nodupFst brs) q hq
  have hidx_perm : (simulcastIndices brs).Perm
      ((ranksFrom 0 (sortDescPairs brs.enum)).map (fun q => q.2.2)) := by
    rw [simulcastIndices]
    rw [← hstep4]
    exact hstep2.map _
  have hfil := hidx_perm.filter (fun i => i ≠ -1)
  have hranks := ranksFrom_pos_ranks 0 (sortDescPairs brs.enum) hsorted
  rw [hranks] at hfil
  have hcount : (sortDescPairs brs.enum).countP (fun e => 0 < e.2)
      = brs.countP (fun b => 0 < b) := by
    rw [hperm.countP_eq]
    exact countP_enum (fun b => 0 < b) brs
  rw [hcount] at hfil
  have hmapcast : ((List.range (brs.countP (fun b => 0 < b))).map
        (fun i => ((0 + i + 1 : Nat) : Int)))
      = ((List.range (brs.countP (fun b => 0 < b))).map
        (fun i => ((i + 1 : Nat) : Int))) := by
    refine List.map_congr_left ?_
    intro i _
    congr 1
    omega
  rw [hmapcast] at hfil
  exact hfil

theorem simulcastIndices_strict (brs : List Nat) (k1 k2 : Nat)
    (hk1 : k1 < brs.length) (hk2 : k2 < brs.length)
    (h1 : k1 < (simulcastIndices brs).length) (h2 : k2 < (simulcastIndices brs).length)
    (hpos : 0 < brs.get ⟨k2, hk2⟩) (hlt : brs.get ⟨k2, hk2⟩ < brs.get ⟨k1, hk1⟩) :
    (simulcastIndices brs).get ⟨k1, h1⟩ < (simulcastIndices brs).get ⟨k2, h2⟩ := by
  have hsorted : (sortDescPairs brs.enum).Pairwise brGe :=
    List.sorted_insertionSort brGe brs.enum
  obtain ⟨q1, hq1, _, hq1b, hq1c⟩ := simulcastIndices_get brs k1 hk1 h1
  obtain ⟨q2, hq2, _, hq2b, hq2c⟩ := simulcastIndices_get brs k2 hk2 h2
  rw [hq1c, hq2c]
  exact ranksFrom_strict 0 _ hsorted q1 hq1 q2 hq2 (hq2b ▸ hpos)
    (by rw [hq1b, hq2b]; exact hlt)

theorem setIdx_Bitrate (i : Int) (a : IncomingAllStats) : (setIdx i a).Bitrate = a.Bitrate := rfl

theorem setIdx_timestamp (i : Int) (a : IncomingAllStats) :
    (setIdx i a).timestamp = a.timestamp := rfl

theorem setIdx_SimulcastIdx (i : Int) (a : IncomingAllStats) :
    (setIdx i a).SimulcastIdx = i := rfl

theorem setIdx_idem (i : Int) (a : IncomingAllStats) : setIdx i (setIdx i a) = setIdx i a := by
  cases a with
  | mk rtt mn mx avg media rtx fec br tot remb sidx ts =>
    simp only [setIdx, setLayerIdx, List.map_map]
    have hmap : List.map
        ((fun l : Layer => { l with SimulcastIdx := i }) ∘
          fun l : Layer => { l with SimulcastIdx := i }) media.Layers
        = List.map (fun l : Layer => { l with SimulcastIdx := i }) media.Layers := by
      refine List.map_congr_left ?_
      intro l _
      rfl
    rw [hmap]

theorem rankCache_length (cache : List (String × IncomingAllStats)) :
    (rankCache cache).length = cache.length := by
  simp [rankCache, simulcastIndices_length]

theorem rankCache_get (cache : List (String × IncomingAllStats)) (k : Nat)
    (h : k < cache.length) (h2 : k < (rankCache cache).length)
    (h3 : k < (simulcastIndices (cache.map (fun e => e.2.Bitrate))).length) :
    (rankCache cache).get ⟨k, h2⟩
      = ((cache.get ⟨k, h⟩).1,
         setIdx ((simulcastIndices (cache.map (fun e => e.2.Bitrate))).get ⟨k, h3⟩)
           (cache.get ⟨k, h⟩).2) := by
  simp [rankCache, List.get_eq_getElem, List.getElem_map, List.getElem_zip]

theorem rankCache_mem {cache : List (String × IncomingAllStats)}
    {p : String × IncomingAllStats} (hp : p ∈ rankCache cache) :
    ∃ q ∈ cache, ∃ i : Int, p = (q.1, setIdx i q.2) := by
  simp only [rankCache, List.mem_map] at hp
  obtain ⟨ei, hei, rfl⟩ := hp
  have hei' : (ei.1, ei.2) ∈ cache.zip (simulcastIndices (cache.map (fun e => e.2.Bitrate))) := by
    rw [Prod.mk.eta]
    exact hei
  obtain ⟨h1, _⟩ := List.of_mem_zip hei'
  exact ⟨ei.1, h1, ei.2, rfl⟩

theorem rankCache_keys (cache : List (String × IncomingAllStats)) :
    (rankCache cache).map Prod.fst = cache.map Prod.fst := by
  refine List.ext_getElem ?_ ?_
  · simp [rankCache_length]
  · intro k h1 h2
    simp [rankCache, List.getElem_map, List.getElem_zip]

theorem rankCache_bitrates (cache : List (String × IncomingAllStats)) :
    (rankCache cache).map (fun e => e.2.Bitrate) = cache.map (fun e => e.2.Bitrate) := by
  refine List.ext_getElem ?_ ?_
  · simp [rankCache_length]
  · intro k h1 h2
    simp [rankCache, List.getElem_map, List.getElem_zip, setIdx_Bitrate]

theorem rankCache_idem (cache : List (String × IncomingAllStats)) :
    rankCache (rankCache cache) = rankCache cache := by
  have hbr := rankCache_bitrates cache
  refine List.ext_getElem ?_ ?_
  · simp [rankCache_length]
  · intro k h1 h2
    have hc : k < cache.length := by
      rw [rankCache_length] at h2; exact h2
    have hrk : k < (rankCache cache).length := h2
    have hsi : k < (simulcastIndices (cache.map (fun e => e.2.Bitrate))).length := by
      rw [simulcastIndices_length]
      simpa using hc
    have hsi2 : k < (simulcastIndices ((rankCache cache).map (fun e => e.2.Bitrate))).length := by
      rw [hbr]
      exact hsi
    show (rankCache (rankCache cache)).get ⟨k, h1⟩ = (rankCache cache).get ⟨k, h2⟩
    rw [rankCache_get (rankCache cache) k hrk h1 hsi2]
    rw [rankCache_get cache k hc hrk hsi]
    have hleq : simulcastIndices ((rankCache cache).map (fun e => e.2.Bitrate))
        = simulcastIndices (cache.map (fun e => e.2.Bitrate)) := by rw [hbr]
    have hidx : (simulcastIndices ((rankCache cache).map (fun e => e.2.Bitrate))).get ⟨k, hsi2⟩
        = (simulcastIndices (cache.map (fun e => e.2.Bitrate))).get ⟨k, hsi⟩ :=
      List.get_of_eq hleq ⟨k, hsi2⟩
    rw [hidx]
    simp [setIdx_idem]

theorem lookupAssoc_some_mem {α : Type} {m : List (String × α)} {k : String} {v : α}
    (h : lookupAssoc m k = some v) : (k, v) ∈ m := by
  unfold lookupAssoc at h
  rcases hf : m.find? (fun e => e.1 == k) with _ | e0
  · rw [hf] at h; exact Option.noConfusion h
  · rw [hf] at h
    have hmem := List.mem_of_find?_eq_some hf
    have hp := List.find?_some hf
    have h1 : e0.1 = k := by simpa using hp
    have h2 : e0.2 = v := by simpa using h
    have he : e0 = (k, v) := by
      cases e0
      simp only at h1 h2
      rw [h1, h2]
    rwa [he] at hmem

theorem refreshPhase_nil (now : Int) (m : List (String × IncomingAllStats)) :
    refreshPhase now [] m = m := rfl

theorem refreshPhase_cons (now : Int) (e : String × RTPIncomingSourceGroup)
    (encs : List (String × RTPIncomingSourceGroup)) (m : List (String × IncomingAllStats)) :
    refreshPhase now (e :: encs) m
      = refreshPhase now encs
          (updateAssoc m e.1 (refreshEntry now e.2 (lookupAssoc m e.1))) := rfl

theorem refreshPhase_keys_mono (now : Int) :
    ∀ (encs : List (String × RTPIncomingSourceGroup))
      (m : List (String × IncomingAllStats)) (s : String),
      s ∈ m.map Prod.fst → s ∈ (refreshPhase now encs m).map Prod.fst := by
  intro encs
  induction encs with
  | nil => intro m s h; exact h
  | cons e encs ih =>
    intro m s h
    rw [refreshPhase_cons]
    apply ih
    rw [updateAssoc_keyList]
    by_cases hk : m.any (fun x => x.1 == e.1)
    · rwa [if_pos hk]
    · rw [if_neg hk]; exact List.mem_append_left _ h

theorem updateAssoc_key_mem {α : Type} (m : List (String × α)) (k : String) (v : α) :
    k ∈ (updateAssoc m k v).map Prod.fst := by
  rw [updateAssoc_keyList]
  by_cases hk : m.any (fun x => x.1 == k)
  · rw [if_pos hk]
    rw [List.any_eq_true] at hk
    obtain ⟨x, hx, hxk⟩ := hk
    have hx1 : x.1 = k := by simpa using hxk
    exact hx1 ▸ List.mem_map_of_mem Prod.fst hx
  · rw [if_neg hk]
    exact List.mem_append_right _ (by simp)

theorem refreshPhase_keys_mem (now : Int) :
    ∀ (encs : List (String × RTPIncomingSourceGroup))
      (m : List (String × IncomingAllStats)),
      ∀ e ∈ encs, e.1 ∈ (refreshPhase now encs m).map Prod.fst := by
  intro encs
  induction encs with
  | nil => intro m e he; simp at he
  | cons x encs ih =>
    intro m e he
    rw [refreshPhase_cons]
    rcases List.mem_cons.mp he with rfl | he'
    · exact refreshPhase_keys_mono now encs _ e.1 (updateAssoc_key_mem _ _ _)
    · exact ih _ e he'

theorem refreshPhase_keys_sub (now : Int) :
    ∀ (encs : List (String × RTPIncomingSourceGroup))
      (m : List (String × IncomingAllStats)),
      ∀ p ∈ refreshPhase now encs m, p.1 ∈ m.map Prod.fst ∨ p.1 ∈ encs.map Prod.fst := by
  intro encs
  induction encs with
  | nil => intro m p hp; left; exact List.mem_map_of_mem _ hp
  | cons e encs ih =>
    intro m p hp
    rw [refreshPhase_cons] at hp
    rcases ih _ p hp with h | h
    · rw [updateAssoc_keyList] at h
      by_cases hk : m.any (fun x => x.1 == e.1)
      · rw [if_pos hk] at h; left; exact h
      · rw [if_neg hk] at h
        rcases List.mem_append.mp h with h2 | h2
        · left; exact h2
        · right
          have : p.1 = e.1 := by simpa using h2
          rw [List.map_cons, this]
          exact List.mem_cons_self _ _
    · right
      rw [List.map_cons]
      exact List.mem_cons_of_mem _ h

theorem refreshPhase_nodupKeys (now : Int) :
    ∀ (encs : List (String × RTPIncomingSourceGroup))
      (m : List (String × IncomingAllStats)),
      (m.map Prod.fst).Nodup → ((refreshPhase now encs m).map Prod.fst).Nodup := by
  intro encs
  induction encs with
  | nil => intro m h; exact h
  | cons e encs ih =>
    intro m h
    rw [refreshPhase_cons]
    exact ih _ (updateAssoc_nodupKeys _ _ _ h)

theorem refreshPhase_timestamps (t : Int) :
    ∀ (encs : List (String × RTPIncomingSourceGroup))
      (m : List (String × IncomingAllStats)),
      (∀ q ∈ m, q.2.timestamp = t ∨
        (freshnessWindowNs < t - q.2.timestamp ∧ q.1 ∈ encs.map Prod.fst)) →
      ∀ p ∈ refreshPhase t encs m, p.2.timestamp = t := by
  intro encs
  induction encs with
  | nil =>
    intro m hinv p hp
    rcases hinv p hp with h | h
    · exact h
    · simp at h
  | cons e encs ih =>
    intro m hinv p hp
    rw [refreshPhase_cons] at hp
    refine ih _ ?_ p hp
    intro q hq
    rcases mem_updateAssoc hq with ⟨hk, hv⟩ | ⟨hqm, hk⟩
    · left
      rw [hv]
      rcases hl : lookupAssoc m e.1 with _ | st
      · rfl
      · by_cases hstale : freshnessWindowNs < t - st.timestamp
        · simp [refreshEntry, hstale, freshStats]
        · have hmem := lookupAssoc_some_mem hl
          have hst : st.timestamp = t := by
            rcases hinv (e.1, st) hmem with h | ⟨hs, _⟩
            · exact h
            · exact absurd hs hstale
          simp only [refreshEntry]
          rw [if_neg hstale]
          exact hst
    · rcases hinv q hqm with h | ⟨hs, hkeys⟩
      · left; exact h
      · right
        refine ⟨hs, ?_⟩
        rw [List.map_cons] at hkeys
        rcases List.mem_cons.mp hkeys with h2 | h2
        · exact absurd h2 hk
        · exact h2

theorem refreshPhase_fresh_id (t : Int) :
    ∀ (encs : List (String × RTPIncomingSourceGroup))
      (m : List (String × IncomingAllStats)),
      (m.map Prod.fst).Nodup →
      (∀ q ∈ m, ¬ freshnessWindowNs < t - q.2.timestamp) →
      (∀ e ∈ encs, e.1 ∈ m.map Prod.fst) →
      refreshPhase t encs m = m := by
  intro encs
  induction encs with
  | nil => intro m _ _ _; rfl
  | cons e encs ih =>
    intro m hnd hfr hkeys
    rw [refreshPhase_cons]
    have hkey : e.1 ∈ m.map Prod.fst := hkeys e (List.mem_cons_self _ _)
    obtain ⟨v, hl, hmem⟩ := lookupAssoc_mem hkey
    have hfresh := hfr (e.1, v) hmem
    have hre : refreshEntry t e.2 (lookupAssoc m e.1) = v := by
      rw [hl]
      simp [refreshEntry, hfresh]
    rw [hre, updateAssoc_lookup_self m e.1 v hnd hl]
    exact ih m hnd hfr (fun x hx => hkeys x (List.mem_cons_of_mem _ hx))

/-- C3: a stats request recomputes and replaces an encoding's cache entry
(with timestamp `now`) exactly when no cached entry exists or the cached
entry is older than 200 ms, and otherwise returns the cached entry unchanged;
hence two track-level stats calls within 200 ms return the identical cache
(same entries, same timestamps), while a call after the window gives every
entry a new timestamp even when the sources are unchanged. -/
theorem C3_freshness_window (now t1 t2 : Int) (g : RTPIncomingSourceGroup)
    (st : IncomingAllStats) (encs : List (String × RTPIncomingSourceGroup)) :
    (refreshEntry now g none = freshStats now g ∧ (freshStats now g).timestamp = now) ∧
    (freshnessWindowNs < now - st.timestamp →
      refreshEntry now g (some st) = freshStats now g) ∧
    (¬ freshnessWindowNs < now - st.timestamp → refreshEntry now g (some st) = st) ∧
    (t2 - t1 ≤ freshnessWindowNs →
      GetStats t2 encs (GetStats t1 encs []) = GetStats t1 encs []) ∧
    (freshnessWindowNs < t2 - t1 →
      ∀ p ∈ GetStats t2 encs (GetStats t1 encs []),
        p.2.timestamp = t2 ∧ p.2.timestamp ≠ t1) := by
  have htsR : ∀ p ∈ refreshPhase t1 encs [], p.2.timestamp = t1 :=
    refreshPhase_timestamps t1 encs [] (by intro q hq; simp at hq)
  have hndR : ((refreshPhase t1 encs []).map Prod.fst).Nodup :=
    refreshPhase_nodupKeys t1 encs [] (by simp)
  have hS : GetStats t1 encs [] = rankCache (refreshPhase t1 encs []) := rfl
  have htsS : ∀ q ∈ GetStats t1 encs [], q.2.timestamp = t1 := by
    intro q hq
    rw [hS] at hq
    obtain ⟨r, hr, i, rfl⟩ := rankCache_mem hq
    show (setIdx i r.2).timestamp = t1
    rw [setIdx_timestamp]
    exact htsR r hr
  refine ⟨⟨rfl, rfl⟩, ?_, ?_, ?_, ?_⟩
  · intro h
    simp only [refreshEntry]
    rw [if_pos h]
  · intro h
    simp only [refreshEntry]
    rw [if_neg h]
  · intro hfr
    have hndS : ((GetStats t1 encs []).map Prod.fst).Nodup := by
      rw [hS, rankCache_keys]; exact hndR
    have hfrS : ∀ q ∈ GetStats t1 encs [], ¬ freshnessWindowNs < t2 - q.2.timestamp := by
      intro q hq
      rw [htsS q hq]
      omega
    have hkeysS : ∀ e ∈ encs, e.1 ∈ (GetStats t1 encs []).map Prod.fst := by
      intro e he
      rw [hS, rankCache_keys]
      exact refreshPhase_keys_mem t1 encs [] e he
    have hid : refreshPhase t2 encs (GetStats t1 encs []) = GetStats t1 encs [] :=
      refreshPhase_fresh_id t2 encs _ hndS hfrS hkeysS
    show rankCache (refreshPhase t2 encs (GetStats t1 encs [])) = GetStats t1 encs []
    rw [hid, hS, rankCache_idem]
  · intro hstale p hp
    have hp' : p ∈ rankCache (refreshPhase t2 encs (GetStats t1 encs [])) := hp
    obtain ⟨q, hq, i, rfl⟩ := rankCache_mem hp'
    have hts2 : ∀ w ∈ refreshPhase t2 encs (GetStats t1 encs []), w.2.timestamp = t2 := by
      refine refreshPhase_timestamps t2 encs _ ?_
      intro w hw
      right
      refine ⟨by rw [htsS w hw]; exact hstale, ?_⟩
      have hkw : w.1 ∈ (GetStats t1 encs []).map Prod.fst := List.mem_map_of_mem _ hw
      rw [hS, rankCache_keys] at hkw
      obtain ⟨r, hr, hr1⟩ := List.mem_map.mp hkw
      rcases refreshPhase_keys_sub t1 encs [] r hr with h | h
      · simp at h
      · rw [← hr1]; exact h
    have hqt := hts2 q hq
    have hw : freshnessWindowNs = 200000000 := rfl
    constructor
    · show (setIdx i q.2).timestamp = t2
      rw [setIdx_timestamp]
      exact hqt
    · show ¬ (setIdx i q.2).timestamp = t1
      rw [setIdx_timestamp, hqt]
      omega

/-- An all-zero receive-source snapshot. -/
def zeroSource : RTPIncomingSource :=
  { LostPackets := 0, DropPackets := 0, NumPackets := 0, NumRTCPPackets := 0,
    TotalBytes := 0, TotalRTCPBytes := 0, TotalPLIs := 0, TotalNACKs := 0,
    Bitrate := 0, layers := [] }

/-- A concrete source group for the freshness witness. -/
def c3group : RTPIncomingSourceGroup :=
  { media := c1src, rtx := zeroSource, fec := zeroSource,
    Rtt := 10, MinWaitedTime := 1, MaxWaitedTime := 5, AvgWaitedTime := 2 }

/-- A one-encoding track for the freshness witness. -/
def c3encs : List (String × RTPIncomingSourceGroup) := [("", c3group)]

/-- An `IncomingStats` with the given bitrate and no layers. -/
def mkIncomingStats (br : Nat) : IncomingStats :=
  { LostPackets := 0, DropPackets := 0, NumPackets := 0, NumRTCPPackets := 0,
    TotalBytes := 0, TotalRTCPBytes := 0, TotalPLIs := 0, TotalNACKs := 0,
    Bitrate := br, Layers := [] }

/-- An `IncomingAllStats` with the given bitrate, no layers and timestamp 0. -/
def mkAllStats (br : Nat) : IncomingAllStats :=
  { Rtt := 0, MinWaitTime := 0, MaxWaitTime := 0, AvgWaitTime := 0,
    Media := mkIncomingStats br, Rtx := mkIncomingStats 0, Fec := mkIncomingStats 0,
    Bitrate := br, Total := br, timestamp := 0 }

theorem C3_witness :
    freshnessWindowNs < (300000000 : Int) - (mkAllStats 0).timestamp ∧
    refreshEntry 300000000 c3group (some (mkAllStats 0)) = freshStats 300000000 c3group ∧
    ((100 : Int) - 0 ≤ freshnessWindowNs) ∧
    GetStats 100 c3encs (GetStats 0 c3encs []) = GetStats 0 c3encs [] :=
  ⟨by decide,
   (C3_freshness_window 300000000 0 100 c3group (mkAllStats 0) c3encs).2.1 (by decide),
   by decide,
   (C3_freshness_window 300000000 0 100 c3group (mkAllStats 0) c3encs).2.2.2.1 (by decide)⟩

/-- The cache of the spec's concrete ranking example: four encodings with
bitrates [0, 50, 0, 200]. -/
def c2cache : List (String × IncomingAllStats) :=
  [("a", mkAllStats 0), ("b", mkAllStats 50), ("c", mkAllStats 0), ("d", mkAllStats 200)]

/-- C2: on every GetStats call the simulcast index is recomputed across the
entire cache after the refresh phase: every entry receives the index of its
position under the descending-bitrate ranking — zero-bitrate entries get −1,
positive-bitrate entries get exactly the ranks 1..N with no gaps and strictly
higher bitrate means strictly smaller rank — and the index is propagated onto
every layer of the entry's media stats; bitrates [0, 50, 0, 200] receive
indices exactly [−1, 2, −1, 1]. -/
theorem C2_simulcast_ranking (cache : List (String × IncomingAllStats)) :
    (∀ (now : Int) (encs : List (String × RTPIncomingSourceGroup))
        (st : List (String × IncomingAllStats)),
      GetStats now encs st = rankCache (refreshPhase now encs st)) ∧
    (rankCache cache).length = cache.length ∧
    (∀ (k : Nat) (h : k < cache.length) (h2 : k < (rankCache cache).length)
        (h3 : k < (simulcastIndices (cache.map (fun e => e.2.Bitrate))).length),
      (rankCache cache).get ⟨k, h2⟩
        = ((cache.get ⟨k, h⟩).1,
           setIdx ((simulcastIndices (cache.map (fun e => e.2.Bitrate))).get ⟨k, h3⟩)
             (cache.get ⟨k, h⟩).2)) ∧
    (∀ (k : Nat) (h : k < cache.length)
        (h3 : k < (simulcastIndices (cache.map (fun e => e.2.Bitrate))).length),
      ((cache.get ⟨k, h⟩).2.Bitrate = 0 →
        (simulcastIndices (cache.map (fun e => e.2.Bitrate))).get ⟨k, h3⟩ = -1) ∧
      (0 < (cache.get ⟨k, h⟩).2.Bitrate →
        1 ≤ (simulcastIndices (cache.map (fun e => e.2.Bitrate))).get ⟨k, h3⟩)) ∧
    ((simulcastIndices (cache.map (fun e => e.2.Bitrate))).filter (fun i => i ≠ -1)).Perm
      ((List.range ((cache.map (fun e => e.2.Bitrate)).countP (fun b => 0 < b))).map
        (fun i => ((i + 1 : Nat) : Int))) ∧
    (∀ (k1 k2 : Nat) (hk1 : k1 < cache.length) (hk2 : k2 < cache.length)
        (h1 : k1 < (simulcastIndices (cache.map (fun e => e.2.Bitrate))).length)
        (h2 : k2 < (simulcastIndices (cache.map (fun e => e.2.Bitrate))).length),
      0 < (cache.get ⟨k2, hk2⟩).2.Bitrate →
      (cache.get ⟨k2, hk2⟩).2.Bitrate < (cache.get ⟨k1, hk1⟩).2.Bitrate →
      (simulcastIndices (cache.map (fun e => e.2.Bitrate))).get ⟨k1, h1⟩
        < (simulcastIndices (cache.map (fun e => e.2.Bitrate))).get ⟨k2, h2⟩) ∧
    (∀ p ∈ rankCache cache, ∀ l ∈ p.2.Media.Layers, l.SimulcastIdx = p.2.SimulcastIdx) ∧
    (rankCache c2cache).map (fun e => e.2.SimulcastIdx) = [-1, 2, -1, 1] := by
  have hbrget : ∀ (k : Nat) (h : k < cache.length)
      (hb : k < (cache.map (fun e => e.2.Bitrate)).length),
      (cache.map (fun e => e.2.Bitrate)).get ⟨k, hb⟩ = (cache.get ⟨k, h⟩).2.Bitrate := by
    intro k h hb
    simp [List.get_eq_getElem, List.getElem_map]
  refine ⟨fun _ _ _ => rfl, rankCache_length cache, rankCache_get cache, ?_, ?_, ?_, ?_, by decide⟩
  · intro k h h3
    have hb : k < (cache.map (fun e => e.2.Bitrate)).length := by simpa using h
    constructor
    · intro hz
      exact simulcastIndices_zero _ k hb h3 ((hbrget k h hb).trans hz)
    · intro hp
      exact simulcastIndices_pos _ k hb h3 ((hbrget k h hb).symm ▸ hp)
  · exact simulcastIndices_nogaps _
  · intro k1 k2 hk1 hk2 h1 h2 hpos hlt
    have hb1 : k1 < (cache.map (fun e => e.2.Bitrate)).length := by simpa using hk1
    have hb2 : k2 < (cache.map (fun e => e.2.Bitrate)).length := by simpa using hk2
    refine simulcastIndices_strict _ k1 k2 hb1 hb2 h1 h2 ?_ ?_
    · rw [hbrget k2 hk2 hb2]; exact hpos
    · rw [hbrget k2 hk2 hb2, hbrget k1 hk1 hb1]; exact hlt
  · intro p hp l hl
    obtain ⟨q, hq, i, rfl⟩ := rankCache_mem hp
    show l.SimulcastIdx = (setIdx i q.2).SimulcastIdx
    rw [setIdx_SimulcastIdx]
    have hl' : l ∈ (setIdx i q.2).Media.Layers := hl
    simp only [setIdx, setLayerIdx] at hl'
    obtain ⟨l0, _, rfl⟩ := List.mem_map.mp hl'
    rfl

theorem C2_witness :
    (c2cache.get ⟨0, by decide⟩).2.Bitrate = 0 ∧
    (simulcastIndices (c2cache.map (fun e => e.2.Bitrate))).get ⟨0, by decide⟩ = -1 ∧
    0 < (c2cache.get ⟨3, by decide⟩).2.Bitrate ∧
    1 ≤ (simulcastIndices (c2cache.map (fun e => e.2.Bitrate))).get ⟨3, by decide⟩ :=
  ⟨by decide,
   ((C2_simulcast_ranking c2cache).2.2.2.1 0 (by decide) (by decide)).1 (by decide),
   by decide,
   ((C2_simulcast_ranking c2cache).2.2.2.1 3 (by decide) (by decide)).2 (by decide)⟩

/-! ## Active-Layer Selector (`IncomingStreamTrack.GetActiveLayers`) -/

/-- Modelled from the spec: `MaxLayerId` is defined elsewhere in the
repository (not among the analysed sources); the spec describes it as the
sentinel "maximum representable layer id" used when an active encoding has no
layering. -/
def MaxLayerId : Int := 255

/-- `ActiveEncoding` (field for field from the Go struct; Go zero values as
defaults). -/
structure ActiveEncoding where
  EncodingId : String := ""
  SimulcastIdx : Int := 0
  Bitrate : Nat := 0
  Layers : List Layer := []
deriving Repr, DecidableEq

/-- `ActiveLayersInfo` (field for field from the Go struct). -/
structure ActiveLayersInfo where
  Active : List ActiveEncoding
  Inactive : List ActiveEncoding
  Layers : List Layer
deriving Repr, DecidableEq

/-- The per-encoding layer copy `GetActiveLayers` builds (only simulcast
index, layer ids and bitrate are copied). -/
def copyEncLayer (l : Layer) : Layer :=
  { SimulcastIdx := l.SimulcastIdx, SpatialLayerId := l.SpatialLayerId,
    TemporalLayerId := l.TemporalLayerId, Bitrate := l.Bitrate }

/-- The global-list layer copy: like `copyEncLayer` but tagged with the
encoding id. -/
def tagLayer (id : String) (l : Layer) : Layer :=
  { EncodingId := id, SimulcastIdx := l.SimulcastIdx, SpatialLayerId := l.SpatialLayerId,
    TemporalLayerId := l.TemporalLayerId, Bitrate := l.Bitrate }

/-- The layer synthesized for an active encoding with zero aggregated layers:
sentinel spatial/temporal ids and the encoding's bitrate. -/
def synthLayer (id : String) (idx : Int) (br : Nat) : Layer :=
  { EncodingId := id, SimulcastIdx := idx, SpatialLayerId := MaxLayerId,
    TemporalLayerId := MaxLayerId, Bitrate := br }

/-- Ascending-bitrate order on layers (the `sort.Slice` comparators use
strict `<`; a valid sort for them is exactly one sorted by `≤`). -/
def layerLe (a b : Layer) : Prop := a.Bitrate ≤ b.Bitrate

instance : DecidableRel layerLe := fun a b => inferInstanceAs (Decidable (a.Bitrate ≤ b.Bitrate))

instance : IsTotal Layer layerLe := ⟨fun a b => Nat.le_total a.Bitrate b.Bitrate⟩

instance : IsTrans Layer layerLe := ⟨fun _ _ _ h1 h2 => Nat.le_trans h1 h2⟩

/-- Ascending-bitrate order on active encodings. -/
def encLe (a b : ActiveEncoding) : Prop := a.Bitrate ≤ b.Bitrate

instance : DecidableRel encLe := fun a b => inferInstanceAs (Decidable (a.Bitrate ≤ b.Bitrate))

instance : IsTotal ActiveEncoding encLe := ⟨fun a b => Nat.le_total a.Bitrate b.Bitrate⟩

instance : IsTrans ActiveEncoding encLe := ⟨fun _ _ _ h1 h2 => Nat.le_trans h1 h2⟩

/-- `sort.Slice` ascending by bitrate on layers. -/
def sortLayersAsc (ls : List Layer) : List Layer := List.insertionSort layerLe ls

/-- `sort.Slice` ascending by bitrate on active encodings. -/
def sortEncsAsc (es : List ActiveEncoding) : List ActiveEncoding :=
  List.insertionSort encLe es

/-- The inactive-list entry: encoding id only. -/
def mkInactive (id : String) : ActiveEncoding := { EncodingId := id }

/-- The active-list entry built for one positive-bitrate encoding: assigned
simulcast index, bitrate, and the per-layer detail sorted ascending by
bitrate (the sort runs only when the layer list is nonempty). -/
def encOut (e : String × IncomingAllStats) : ActiveEncoding :=
  let ls := e.2.Media.Layers.map copyEncLayer
  { EncodingId := e.1, SimulcastIdx := e.2.SimulcastIdx, Bitrate := e.2.Bitrate,
    Layers := if 0 < ls.length then sortLayersAsc ls else ls }

/-- What one positive-bitrate encoding appends to the global layer list: its
tagged layers, or the single synthesized layer when it has none. -/
def contribAll (e : String × IncomingAllStats) : List Layer :=
  if 0 < e.2.Media.Layers.length then e.2.Media.Layers.map (tagLayer e.1)
  else [synthLayer e.1 e.2.SimulcastIdx e.2.Bitrate]

/-- The body of the loop of `GetActiveLayers` over the stats map.  The
accumulator is (active, inactive, global layer list). -/
def galStep (acc : List ActiveEncoding × List ActiveEncoding × List Layer)
    (e : String × IncomingAllStats) :
    List ActiveEncoding × List ActiveEncoding × List Layer :=
  if e.2.Bitrate = 0 then (acc.1, acc.2.1 ++ [mkInactive e.1], acc.2.2)
  else (acc.1 ++ [encOut e], acc.2.1, acc.2.2 ++ contribAll e)

/-- `IncomingStreamTrack.GetActiveLayers` applied to a stats snapshot: walk
the entries, then sort the active list and the global layer list ascending by
bitrate (each sort runs only on a nonempty list). -/
def GetActiveLayers (stats : List (String × IncomingAllStats)) : ActiveLayersInfo :=
  let r := stats.foldl galStep ([], [], [])
  { Active := if 0 < r.1.length then sortEncsAsc r.1 else r.1,
    Inactive := r.2.1,
    Layers := if 0 < r.2.2.length then sortLayersAsc r.2.2 else r.2.2 }

/-- The full active-layer query: refresh the stats cache, then derive the
view. -/
def GetActiveLayersFull (now : Int) (encs : List (String × RTPIncomingSourceGroup))
    (stats : List (String × IncomingAllStats)) : ActiveLayersInfo :=
  GetActiveLayers (GetStats now encs stats)

/-- Closed form of the `GetActiveLayers` loop. -/
theorem gal_fold (stats : List (String × IncomingAllStats)) :
    ∀ acc : List ActiveEncoding × List ActiveEncoding × List Layer,
    (stats.foldl galStep acc).1
      = acc.1 ++ (stats.filter (fun e => !(e.2.Bitrate == 0))).map encOut ∧
    (stats.foldl galStep acc).2.1
      = acc.2.1 ++ (stats.filter (fun e => e.2.Bitrate == 0)).map (fun e => mkInactive e.1) ∧
    (stats.foldl galStep acc).2.2
      = acc.2.2 ++ ((stats.filter (fun e => !(e.2.Bitrate == 0))).map contribAll).flatten := by
  induction stats with
  | nil => intro acc; simp
  | cons e es ih =>
    intro acc
    rw [List.foldl_cons]
    obtain ⟨i1, i2, i3⟩ := ih (galStep acc e)
    by_cases hb : e.2.Bitrate = 0
    · have hstep : galStep acc e = (acc.1, acc.2.1 ++ [mkInactive e.1], acc.2.2) := by
        simp [galStep, hb]
      refine ⟨?_, ?_, ?_⟩
      · rw [i1, hstep, List.filter_cons]; simp [hb]
      · rw [i2, hstep, List.filter_cons]; simp [hb]
      · rw [i3, hstep, List.filter_cons]; simp [hb]
    · have hstep : galStep acc e = (acc.1 ++ [encOut e], acc.2.1, acc.2.2 ++ contribAll e) := by
        simp [galStep, hb]
      refine ⟨?_, ?_, ?_⟩
      · rw [i1, hstep, List.filter_cons]; simp [hb]
      · rw [i2, hstep, List.filter_cons]; simp [hb]
      · rw [i3, hstep, List.filter_cons]; simp [hb]

/-- Every layer an encoding contributes to the global list carries that
encoding's id. -/
theorem contribAll_encId (q : String × IncomingAllStats) :
    ∀ l ∈ contribAll q, l.EncodingId = q.1 := by
  intro l hl
  unfold contribAll at hl
  by_cases hlen : 0 < q.2.Media.Layers.length
  · rw [if_pos hlen] at hl
    obtain ⟨l0, _, rfl⟩ := List.mem_map.mp hl
    rfl
  · rw [if_neg hlen] at hl
    have : l = synthLayer q.1 q.2.SimulcastIdx q.2.Bitrate := by simpa using hl
    rw [this]
    rfl

/-- The active and global lists `GetActiveLayers` returns are (sorted)
permutations of the active entries and of their contributions. -/
theorem gal_perms (stats : List (String × IncomingAllStats)) :
    (GetActiveLayers stats).Active.Perm
      ((stats.filter (fun e => !(e.2.Bitrate == 0))).map encOut) ∧
    (GetActiveLayers stats).Layers.Perm
      (((stats.filter (fun e => !(e.2.Bitrate == 0))).map contribAll).flatten) := by
  obtain ⟨f1, _, f3⟩ := gal_fold stats ([], [], [])
  simp only [List.nil_append] at f1 f3
  constructor
  · rw [← f1]
    show (if 0 < (stats.foldl galStep ([], [], [])).1.length
      then sortEncsAsc (stats.foldl galStep ([], [], [])).1
      else (stats.foldl galStep ([], [], [])).1).Perm _
    by_cases h : 0 < (stats.foldl galStep ([], [], [])).1.length
    · rw [if_pos h]; exact List.perm_insertionSort encLe _
    · rw [if_neg h]
  · rw [← f3]
    show (if 0 < (stats.foldl galStep ([], [], [])).2.2.length
      then sortLayersAsc (stats.foldl galStep ([], [], [])).2.2
      else (stats.foldl galStep ([], [], [])).2.2).Perm _
    by_cases h : 0 < (stats.foldl galStep ([], [], [])).2.2.length
    · rw [if_pos h]; exact List.perm_insertionSort layerLe _
    · rw [if_neg h]

/-- When the stats snapshot has each layer carrying its entry's simulcast
index (as `GetStats` guarantees), every layer of the global list is tagged
with its encoding's id and simulcast index. -/
theorem gal_tagging (stats : List (String × IncomingAllStats))
    (hprop : ∀ q ∈ stats, ∀ l ∈ q.2.Media.Layers, l.SimulcastIdx = q.2.SimulcastIdx) :
    ∀ l ∈ (GetActiveLayers stats).Layers, ∃ q ∈ stats, ¬ q.2.Bitrate = 0 ∧
      l.EncodingId = q.1 ∧ l.SimulcastIdx = q.2.SimulcastIdx := by
  intro l hl
  have hl' := (gal_perms stats).2.mem_iff.mp hl
  obtain ⟨s, hs, hls⟩ := List.mem_flatten.mp hl'
  obtain ⟨q, hq, rfl⟩ := List.mem_map.mp hs
  have hqs : q ∈ stats := List.mem_of_mem_filter hq
  have hqb : ¬ q.2.Bitrate = 0 := by
    have := List.of_mem_filter hq
    simpa using this
  refine ⟨q, hqs, hqb, contribAll_encId q l hls, ?_⟩
  unfold contribAll at hls
  by_cases hlen : 0 < q.2.Media.Layers.length
  · rw [if_pos hlen] at hls
    obtain ⟨l0, hl0, rfl⟩ := List.mem_map.mp hls
    show (tagLayer q.1 l0).SimulcastIdx = q.2.SimulcastIdx
    have h1 : (tagLayer q.1 l0).SimulcastIdx = l0.SimulcastIdx := rfl
    rw [h1]
    exact hprop q hqs l0 hl0
  · rw [if_neg hlen] at hls
    have : l = synthLayer q.1 q.2.SimulcastIdx q.2.Bitrate := by simpa using hls
    rw [this]
    rfl

/-- The ranking phase leaves every layer of an entry's media stats carrying
the entry's simulcast index. -/
theorem rankCache_propagates (cache : List (String × IncomingAllStats)) :
    ∀ p ∈ rankCache cache, ∀ l ∈ p.2.Media.Layers, l.SimulcastIdx = p.2.SimulcastIdx := by
  intro p hp l hl
  obtain ⟨q, hq, i, rfl⟩ := rankCache_mem hp
  show l.SimulcastIdx = (setIdx i q.2).SimulcastIdx
  rw [setIdx_SimulcastIdx]
  have hl' : l ∈ (setIdx i q.2).Media.Layers := hl
  simp only [setIdx, setLayerIdx] at hl'
  obtain ⟨l0, _, rfl⟩ := List.mem_map.mp hl'
  rfl

/-- C6: every zero-bitrate encoding lands exactly once in the inactive list
(id only), every positive-bitrate encoding exactly once in the active list
(with its simulcast index, bitrate and sorted per-layer detail); the active
list, each active entry's layer list, and the global layer list are all
sorted ascending by bitrate, and — given the propagation `GetStats`
establishes — every global layer is tagged with its encoding's id and
simulcast index. -/
theorem C6_active_layers (stats : List (String × IncomingAllStats)) :
    (GetActiveLayers stats).Inactive
      = (stats.filter (fun e => e.2.Bitrate == 0)).map (fun e => mkInactive e.1) ∧
    (∀ e ∈ (GetActiveLayers stats).Inactive,
      e.SimulcastIdx = 0 ∧ e.Bitrate = 0 ∧ e.Layers = []) ∧
    (GetActiveLayers stats).Active.Perm
      ((stats.filter (fun e => !(e.2.Bitrate == 0))).map encOut) ∧
    (GetActiveLayers stats).Active.Pairwise encLe ∧
    (∀ e ∈ (GetActiveLayers stats).Active, e.Layers.Pairwise layerLe) ∧
    (GetActiveLayers stats).Layers.Pairwise layerLe ∧
    (GetActiveLayers stats).Layers.Perm
      (((stats.filter (fun e => !(e.2.Bitrate == 0))).map contribAll).flatten) ∧
    ((∀ q ∈ stats, ∀ l ∈ q.2.Media.Layers, l.SimulcastIdx = q.2.SimulcastIdx) →
      ∀ l ∈ (GetActiveLayers stats).Layers, ∃ q ∈ stats, ¬ q.2.Bitrate = 0 ∧
        l.EncodingId = q.1 ∧ l.SimulcastIdx = q.2.SimulcastIdx) ∧
    (∀ (now : Int) (encs : List (String × RTPIncomingSourceGroup))
        (stc : List (String × IncomingAllStats)),
      ∀ l ∈ (GetActiveLayersFull now encs stc).Layers,
        ∃ q ∈ GetStats now encs stc, ¬ q.2.Bitrate = 0 ∧
          l.EncodingId = q.1 ∧ l.SimulcastIdx = q.2.SimulcastIdx) := by
  obtain ⟨f1, f2, f3⟩ := gal_fold stats ([], [], [])
  simp only [List.nil_append] at f1 f2 f3
  have hA : (GetActiveLayers stats).Active
      = if 0 < (stats.foldl galStep ([], [], [])).1.length
        then sortEncsAsc (stats.foldl galStep ([], [], [])).1
        else (stats.foldl galStep ([], [], [])).1 := rfl
  have hI : (GetActiveLayers stats).Inactive = (stats.foldl galStep ([], [], [])).2.1 := rfl
  have hL : (GetActiveLayers stats).Layers
      = if 0 < (stats.foldl galStep ([], [], [])).2.2.length
        then sortLayersAsc (stats.foldl galStep ([], [], [])).2.2
        else (stats.foldl galStep ([], [], [])).2.2 := rfl
  have hAperm : (GetActiveLayers stats).Active.Perm (stats.foldl galStep ([], [], [])).1 := by
    rw [hA]
    by_cases h : 0 < (stats.foldl galStep ([], [], [])).1.length
    · rw [if_pos h]; exact List.perm_insertionSort encLe _
    · rw [if_neg h]
  have hLperm : (GetActiveLayers stats).Layers.Perm (stats.foldl galStep ([], [], [])).2.2 := by
    rw [hL]
    by_cases h : 0 < (stats.foldl galStep ([], [], [])).2.2.length
    · rw [if_pos h]; exact List.perm_insertionSort layerLe _
    · rw [if_neg h]
  refine ⟨by rw [hI, f2], ?_, ?_, ?_, ?_, ?_, ?_, ?_, ?_⟩
  · intro e he
    rw [hI, f2] at he
    obtain ⟨q, _, rfl⟩ := List.mem_map.mp he
    exact ⟨rfl, rfl, rfl⟩
  · rw [← f1]; exact hAperm
  · rw [hA]
    by_cases h : 0 < (stats.foldl galStep ([], [], [])).1.length
    · rw [if_pos h]; exact List.sorted_insertionSort encLe _
    · rw [if_neg h]
      have : (stats.foldl galStep ([], [], [])).1 = [] := by
        cases hc : (stats.foldl galStep ([], [], [])).1 with
        | nil => rfl
        | cons a as => rw [hc] at h; simp at h
      rw [this]
      exact List.Pairwise.nil
  · intro e he
    have he' : e ∈ (stats.foldl galStep ([], [], [])).1 := hAperm.mem_iff.mp he
    rw [f1] at he'
    obtain ⟨q, _, rfl⟩ := List.mem_map.mp he'
    show (encOut q).Layers.Pairwise layerLe
    unfold encOut
    by_cases h : 0 < (q.2.Media.Layers.map copyEncLayer).length
    · simp only [if_pos h]
      exact List.sorted_insertionSort layerLe _
    · simp only [if_neg h]
      have : q.2.Media.Layers.map copyEncLayer = [] := by
        cases hc : q.2.Media.Layers.map copyEncLayer with
        | nil => rfl
        | cons a as => rw [hc] at h; simp at h
      rw [this]
      exact List.Pairwise.nil
  · rw [hL]
    by_cases h : 0 < (stats.foldl galStep ([], [], [])).2.2.length
    · rw [if_pos h]; exact List.sorted_insertionSort layerLe _
    · rw [if_neg h]
      have : (stats.foldl galStep ([], [], [])).2.2 = [] := by
        cases hc : (stats.foldl galStep ([], [], [])).2.2 with
        | nil => rfl
        | cons a as => rw [hc] at h; simp at h
      rw [this]
      exact List.Pairwise.nil
  · rw [← f3]; exact hLperm
  · exact gal_tagging stats
  · intro now encs stc
    exact gal_tagging (GetStats now encs stc) (rankCache_propagates _)

/-- An active single-layer encoding whose layer already carries its
propagated simulcast index. -/
def c6hi : IncomingAllStats :=
  { Rtt := 0, MinWaitTime := 0, MaxWaitTime := 0, AvgWaitTime := 0,
    Media := { mkIncomingStats 300 with Layers :=
      [{ SpatialLayerId := 0, TemporalLayerId := 0, Bitrate := 300, SimulcastIdx := 1 }] },
    Rtx := mkIncomingStats 0, Fec := mkIncomingStats 0,
    Bitrate := 300, Total := 300, SimulcastIdx := 1, timestamp := 0 }

/-- A two-encoding stats snapshot: one inactive, one active. -/
def c6stats : List (String × IncomingAllStats) := [("lo", mkAllStats 0), ("hi", c6hi)]

theorem C6_witness :
    (∀ q ∈ c6stats, ∀ l ∈ q.2.Media.Layers, l.SimulcastIdx = q.2.SimulcastIdx) ∧
    (∀ l ∈ (GetActiveLayers c6stats).Layers, ∃ q ∈ c6stats, ¬ q.2.Bitrate = 0 ∧
      l.EncodingId = q.1 ∧ l.SimulcastIdx = q.2.SimulcastIdx) :=
  ⟨by decide, (C6_active_layers c6stats).2.2.2.2.2.2.2.1 (by decide)⟩

/-- Two entries of a map with duplicate-free keys that share a key share the
value. -/
theorem nodupKeys_eq {α : Type} {m : List (String × α)} (hnd : (m.map Prod.fst).Nodup)
    {k : String} {a b : α} (ha : (k, a) ∈ m) (hb : (k, b) ∈ m) : a = b := by
  induction m with
  | nil => simp at ha
  | cons x xs ih =>
    rw [List.map_cons, List.nodup_cons] at hnd
    obtain ⟨hx_not, hnd'⟩ := hnd
    rcases List.mem_cons.mp ha with hax | ha' <;> rcases List.mem_cons.mp hb with hbx | hb'
    · rw [← hax] at hbx
      exact (Prod.mk.injEq _ _ _ _).mp hbx.symm |>.2
    · exfalso
      apply hx_not
      have hkm : k ∈ xs.map Prod.fst := List.mem_map_of_mem Prod.fst hb'
      rw [← hax]
      exact hkm
    · exfalso
      apply hx_not
      have hkm : k ∈ xs.map Prod.fst := List.mem_map_of_mem Prod.fst ha'
      rw [← hbx]
      exact hkm
    · exact ih hnd' ha' hb'

theorem countP_contrib_zero (id : String) (L : List (String × IncomingAllStats))
    (h : ∀ q ∈ L, q.1 ≠ id) :
    ((L.map contribAll).flatten).countP (fun l => l.EncodingId == id) = 0 := by
  rw [List.countP_eq_zero]
  intro l hl
  obtain ⟨s, hs, hls⟩ := List.mem_flatten.mp hl
  obtain ⟨q, hq, rfl⟩ := List.mem_map.mp hs
  have he := contribAll_encId q l hls
  simp [he, h q hq]

theorem countP_contrib_one (id : String) :
    ∀ (L : List (String × IncomingAllStats)), (L.map Prod.fst).Nodup →
    ∀ q0 ∈ L, q0.1 = id →
    ((L.map contribAll).flatten).countP (fun l => l.EncodingId == id)
      = (contribAll q0).countP (fun l => l.EncodingId == id) := by
  intro L
  induction L with
  | nil => intro _ q0 h; simp at h
  | cons x xs ih =>
    intro hnd q0 hq0 hid
    rw [List.map_cons, List.nodup_cons] at hnd
    obtain ⟨hx_not, hnd'⟩ := hnd
    rw [List.map_cons, List.flatten_cons, List.countP_append]
    rcases List.mem_cons.mp hq0 with rfl | hq0'
    · have hz : ((xs.map contribAll).flatten).countP (fun l => l.EncodingId == id) = 0 := by
        refine countP_contrib_zero id xs ?_
        intro q hq hcon
        apply hx_not
        rw [hid, ← hcon]
        exact List.mem_map_of_mem Prod.fst hq
      rw [hz]
      omega
    · have hxid : x.1 ≠ id := by
        intro h
        apply hx_not
        rw [h, ← hid]
        exact List.mem_map_of_mem Prod.fst hq0'
      have hzx : (contribAll x).countP (fun l => l.EncodingId == id) = 0 := by
        rw [List.countP_eq_zero]
        intro l hl
        simp [contribAll_encId x l hl, hxid]
      rw [hzx, ih hnd' q0 hq0' hid]
      omega

theorem countP_key_one {α : Type} :
    ∀ (L : List (String × α)), (L.map Prod.fst).Nodup →
    ∀ (k : String) (v : α), (k, v) ∈ L → L.countP (fun q => q.1 == k) = 1 := by
  intro L
  induction L with
  | nil => intro _ k v h; simp at h
  | cons x xs ih =>
    intro hnd k v hm
    rw [List.map_cons, List.nodup_cons] at hnd
    obtain ⟨hx_not, hnd'⟩ := hnd
    rw [List.countP_cons]
    rcases List.mem_cons.mp hm with heq | hm'
    · have hx1 : x.1 = k := by rw [← heq]
      have hz : xs.countP (fun q => q.1 == k) = 0 := by
        rw [List.countP_eq_zero]
        intro q hq
        have hqk : q.1 ≠ k := by
          intro h
          apply hx_not
          rw [hx1, ← h]
          exact List.mem_map_of_mem Prod.fst hq
        simp [hqk]
      rw [hz]
      simp [hx1]
    · have hx1 : x.1 ≠ k := by
        intro h
        apply hx_not
        rw [h]
        exact List.mem_map_of_mem Prod.fst hm'
      rw [ih hnd' k v hm']
      simp [hx1]

/-- C5: an active encoding with zero aggregated layers contributes exactly
one synthesized layer to the global layer list — sentinel spatial/temporal
ids (`MaxLayerId`) and the encoding's bitrate and simulcast index — and its
active-list entry keeps an empty layer list; in general every active encoding
has at least one row in the global list. -/
theorem C5_layer_synthesis (stats : List (String × IncomingAllStats))
    (hnd : (stats.map Prod.fst).Nodup) (id : String) (st : IncomingAllStats)
    (hmem : (id, st) ∈ stats) (hbr : 0 < st.Bitrate) (hlay : st.Media.Layers = []) :
    (GetActiveLayers stats).Layers.countP (fun l => l.EncodingId == id) = 1 ∧
    (∀ l ∈ (GetActiveLayers stats).Layers, l.EncodingId = id →
      l.SpatialLayerId = MaxLayerId ∧ l.TemporalLayerId = MaxLayerId ∧
      l.Bitrate = st.Bitrate ∧ l.SimulcastIdx = st.SimulcastIdx) ∧
    (GetActiveLayers stats).Active.countP (fun e => e.EncodingId == id) = 1 ∧
    (∀ e ∈ (GetActiveLayers stats).Active, e.EncodingId = id →
      e.Layers = [] ∧ e.Bitrate = st.Bitrate ∧ e.SimulcastIdx = st.SimulcastIdx) ∧
    (∀ q ∈ stats, ¬ q.2.Bitrate = 0 →
      ∃ l ∈ (GetActiveLayers stats).Layers, l.EncodingId = q.1) := by
  obtain ⟨hpermA, hpermL⟩ := gal_perms stats
  have hbrne : st.Bitrate ≠ 0 := by omega
  have hndF : ((stats.filter (fun e => !(e.2.Bitrate == 0))).map Prod.fst).Nodup :=
    hnd.sublist ((List.filter_sublist stats).map Prod.fst)
  have hmemF : (id, st) ∈ stats.filter (fun e => !(e.2.Bitrate == 0)) :=
    List.mem_filter.mpr ⟨hmem, by simp [hbrne]⟩
  have hcontrib : contribAll (id, st) = [synthLayer id st.SimulcastIdx st.Bitrate] := by
    unfold contribAll
    rw [if_neg (by simp [hlay])]
  refine ⟨?_, ?_, ?_, ?_, ?_⟩
  · rw [hpermL.countP_eq]
    rw [countP_contrib_one id _ hndF (id, st) hmemF rfl, hcontrib]
    simp [synthLayer]
  · intro l hl hlid
    have hl' := hpermL.mem_iff.mp hl
    obtain ⟨s, hs, hls⟩ := List.mem_flatten.mp hl'
    obtain ⟨q, hq, rfl⟩ := List.mem_map.mp hs
    have hq1 : q.1 = id := (contribAll_encId q l hls).symm.trans hlid
    have hqmem : (id, q.2) ∈ stats := by
      have : q = (id, q.2) := by
        rw [← hq1]
      rw [← this]
      exact List.mem_of_mem_filter hq
    have hq2 : q.2 = st := nodupKeys_eq hnd hqmem hmem
    have hcq : contribAll q = [synthLayer id st.SimulcastIdx st.Bitrate] := by
      have : q = (id, st) := by
        rw [← hq1, ← hq2]
      rw [this, hcontrib]
    rw [hcq] at hls
    have : l = synthLayer id st.SimulcastIdx st.Bitrate := by simpa using hls
    rw [this]
    exact ⟨rfl, rfl, rfl, rfl⟩
  · rw [hpermA.countP_eq]
    show ((stats.filter (fun e => !(e.2.Bitrate == 0))).map encOut).countP
      (fun e => e.EncodingId == id) = 1
    rw [List.countP_map]
    show (stats.filter (fun e => !(e.2.Bitrate == 0))).countP (fun q => q.1 == id) = 1
    exact countP_key_one _ hndF id st hmemF
  · intro e he heid
    have he' := hpermA.mem_iff.mp he
    obtain ⟨q, hq, rfl⟩ := List.mem_map.mp he'
    have hq1 : q.1 = id := heid
    have hqmem : (id, q.2) ∈ stats := by
      have : q = (id, q.2) := by
        rw [← hq1]
      rw [← this]
      exact List.mem_of_mem_filter hq
    have hq2 : q.2 = st := nodupKeys_eq hnd hqmem hmem
    have hqe : q = (id, st) := by
      rw [← hq1, ← hq2]
    rw [hqe]
    unfold encOut
    rw [hlay]
    exact ⟨rfl, rfl, rfl⟩
  · intro q hq hqb
    have hqF : q ∈ stats.filter (fun e => !(e.2.Bitrate == 0)) :=
      List.mem_filter.mpr ⟨hq, by simp [hqb]⟩
    have hne : contribAll q ≠ [] := by
      unfold contribAll
      by_cases hlen : 0 < q.2.Media.Layers.length
      · rw [if_pos hlen]
        intro hcon
        rw [List.map_eq_nil_iff] at hcon
        rw [hcon] at hlen
        simp at hlen
      · rw [if_neg hlen]
        simp
    obtain ⟨l, hl⟩ := List.exists_mem_of_ne_nil _ hne
    refine ⟨l, ?_, contribAll_encId q l hl⟩
    refine hpermL.symm.mem_iff.mp ?_
    exact List.mem_flatten.mpr ⟨contribAll q, List.mem_map_of_mem contribAll hqF, hl⟩

/-- A single flat active encoding with no layers. -/
def c5stats : List (String × IncomingAllStats) := [("flat", mkAllStats 400)]

theorem C5_witness :
    (c5stats.map Prod.fst).Nodup ∧
    ("flat", mkAllStats 400) ∈ c5stats ∧
    0 < (mkAllStats 400).Bitrate ∧
    (mkAllStats 400).Media.Layers = [] ∧
    (GetActiveLayers c5stats).Layers.countP (fun l => l.EncodingId == "flat") = 1 ∧
    (∀ l ∈ (GetActiveLayers c5stats).Layers, l.EncodingId = "flat" →
      l.SpatialLayerId = MaxLayerId ∧ l.TemporalLayerId = MaxLayerId ∧
      l.Bitrate = (mkAllStats 400).Bitrate ∧ l.SimulcastIdx = (mkAllStats 400).SimulcastIdx) :=
  ⟨by decide, by decide, by decide, rfl,
   (C5_layer_synthesis c5stats (by decide) "flat" (mkAllStats 400)
     (by decide) (by decide) rfl).1,
   (C5_layer_synthesis c5stats (by decide) "flat" (mkAllStats 400)
     (by decide) (by decide) rfl).2.1⟩

end MediaServerGo
